import Mathlib

/-!
Verification development for the smart-contract settlement engine.

The Go sources are shallowly embedded: pure functions become Lean functions,
machine integers become `Nat` (a Go `uintN` field value is well-formed when
below `2^N`; truncating writes are modelled with explicit `% 2^N` arithmetic),
byte strings become `List Nat` whose entries are byte values, and fallible
code returns `Except`/`Option`.
-/

namespace SmartContract

/-! ### Byte-level primitives

These model the `encoding/binary` and `bytes` Go library operations used by
the holdings serialization code (`src/unnamed/part_004`, package `holdings`).
-/

/-- A byte value; well-formed when `< 256`. -/
abbrev Byte := Nat

/-- Little-endian encoding of `n` into `k` bytes, as produced by
`binary.Write(buf, binary.LittleEndian, v)` for a `k`-byte machine integer
holding `n % 2^(8*k)`. -/
def leBytes : Nat → Nat → List Byte
  | 0, _ => []
  | k + 1, n => n % 256 :: leBytes k (n / 256)

/-- Read of a `k`-byte little-endian integer, as performed by
`binary.Read(buf, binary.LittleEndian, &v)`; `binary.Read` uses
`io.ReadFull` semantics, so it fails unless `k` bytes are available. -/
def readLE : Nat → List Byte → Option (Nat × List Byte)
  | 0, bs => some (0, bs)
  | _ + 1, [] => none
  | k + 1, b :: bs => (readLE k bs).map (fun p => (b + 256 * p.1, p.2))

/-- Read of exactly `k` raw bytes with `io.ReadFull` semantics (used for
tx-id deserialization). -/
def readBytes : Nat → List Byte → Option (List Byte × List Byte)
  | 0, bs => some ([], bs)
  | _ + 1, [] => none
  | k + 1, b :: bs => (readBytes k bs).map (fun p => (b :: p.1, p.2))

/-- Go `bytes.Reader.Read` into a fresh `k`-byte buffer: it errors only when
no byte is available at all; otherwise it fills as many bytes as are
available and leaves the rest of the zero-initialised buffer untouched. -/
def bufRead (k : Nat) (bs : List Byte) : Option (List Byte × List Byte) :=
  if bs.isEmpty ∧ k ≠ 0 then none
  else some (bs.take k ++ List.replicate (k - bs.length) 0, bs.drop k)

theorem leBytes_length (k n : Nat) : (leBytes k n).length = k := by
  induction k generalizing n with
  | zero => simp [leBytes]
  | succ k ih => simp [leBytes, ih]

theorem readLE_leBytes (k n : Nat) (rest : List Byte) (h : n < 2 ^ (8 * k)) :
    readLE k (leBytes k n ++ rest) = some (n, rest) := by
  induction k generalizing n with
  | zero =>
    have : n = 0 := by simpa using h
    simp [this, leBytes, readLE]
  | succ k ih =>
    have hpow : 2 ^ (8 * (k + 1)) = 2 ^ (8 * k) * 256 := by
      rw [Nat.mul_succ, pow_add]; norm_num
    have hlt : n / 256 < 2 ^ (8 * k) := by
      rw [Nat.div_lt_iff_lt_mul (by norm_num : 0 < 256)]
      omega
    simp [leBytes, readLE, ih _ hlt]
    omega

theorem readBytes_append (xs rest : List Byte) :
    readBytes xs.length (xs ++ rest) = some (xs, rest) := by
  induction xs with
  | nil => simp [readBytes]
  | cons b bs ih => simp [readBytes, ih]

theorem bufRead_exact (k : Nat) (xs rest : List Byte) (hk : 0 < k)
    (hlen : xs.length = k) : bufRead k (xs ++ rest) = some (xs, rest) := by
  subst hlen
  unfold bufRead
  have h1 : ¬((xs ++ rest).isEmpty = true ∧ xs.length ≠ 0) := by
    cases xs with
    | nil => simp at hk
    | cons a l => simp
  rw [if_neg h1]
  have h2 : xs.length - (xs ++ rest).length = 0 := by simp
  have h3 : (xs ++ rest).take xs.length = xs := by simp
  have h4 : (xs ++ rest).drop xs.length = rest := by simp
  rw [h2, h3, h4]
  simp

/-! ### Holdings on-disk format (`src/unnamed/part_004`, package `holdings`)

The `state.Holding` and `state.HoldingStatus` struct declarations live in
`internal/platform/state`, which is not under `src/`; their fields and field
types are taken from the serialization code in `src/unnamed/part_004`
(`serializeHolding` / `deserializeHolding`), which reads and writes every
field, and from the spec's description of the format.

Timestamps (`protocol.Timestamp`) and tx ids (`protocol.TxId`) come from the
external `specification` library (an external collaborator per the spec):
a timestamp serializes as a little-endian 64-bit nanosecond count and a tx id
as 32 raw bytes.

The Go map `HoldingStatuses map[protocol.TxId]*state.HoldingStatus` is
represented by its enumeration order: a list of key/value pairs. Go does not
specify (and actively randomises) the iteration order of a map, so a single
Go map value corresponds to every permutation of this list; `SameGoHolding`
below identifies holdings that denote the same Go value. -/

/-- Script type constants from `src/pkg/bitcoin/raw_address.go`. -/
def ScriptTypePKH : Byte := 0x20
def ScriptTypeSH : Byte := 0x21
def ScriptTypeMultiPKH : Byte := 0x22
def ScriptTypeRPH : Byte := 0x23
def ScriptHashLength : Nat := 20

/-- The Go `bitcoin.RawAddress` struct: a script type byte plus hash data. -/
structure RawAddress where
  scriptType : Byte
  data : List Byte
deriving DecidableEq, Repr

/-- RawAddress.Serialize from `src/pkg/bitcoin/raw_address.go`: the script
type byte followed by the raw data. -/
def RawAddress.serialize (ra : RawAddress) : List Byte :=
  ra.scriptType :: ra.data

/-- RawAddress.Deserialize from `src/pkg/bitcoin/raw_address.go`: reads the
type byte, then the hash data.  For the single-hash script types the source
reads into a fresh 20-byte buffer with `bytes.Reader.Read` (partial-fill
semantics) and the `Set*` setter then stores type and data.
The `AddressTypeMain* / AddressTypeTest*` alias byte values and the MultiPKH
parser (`ReadBase128VarInt`) live in files that are not under `src/`; those
branches are mapped to an error here and are never exercised by the theorems
below, whose holdings carry PKH addresses. Unmatched type bytes return
`ErrBadType` as in the source. -/
def RawAddress.deserializeStep : List Byte → Except String (RawAddress × List Byte)
  | [] => .error "EOF"
  | t :: rest =>
    if t = ScriptTypePKH then
      match bufRead ScriptHashLength rest with
      | none => .error "EOF"
      | some (pkh, rem) => .ok (⟨ScriptTypePKH, pkh⟩, rem)
    else if t = ScriptTypeSH then
      match bufRead ScriptHashLength rest with
      | none => .error "EOF"
      | some (sh, rem) => .ok (⟨ScriptTypeSH, sh⟩, rem)
    else if t = ScriptTypeMultiPKH then
      .error "MultiPKH branch: ReadBase128VarInt not under src"
    else if t = ScriptTypeRPH then
      match bufRead ScriptHashLength rest with
      | none => .error "EOF"
      | some (rph, rem) => .ok (⟨ScriptTypeRPH, rph⟩, rem)
    else
      .error "ErrBadType"

/-- A holding status record, with the fields written by
`serializeHoldingStatus` in `src/unnamed/part_004`. -/
structure HoldingStatus where
  code : Byte
  expires : Nat
  amount : Nat
  txId : List Byte
  settleQuantity : Nat
  posted : Bool
deriving DecidableEq, Repr

/-- A holding, with the fields written by `serializeHolding` in
`src/unnamed/part_004`.  `holdingStatuses` is the Go map in one of its
enumeration orders. -/
structure Holding where
  address : RawAddress
  pendingBalance : Nat
  finalizedBalance : Nat
  createdAt : Nat
  updatedAt : Nat
  holdingStatuses : List (List Byte × HoldingStatus)
deriving DecidableEq, Repr

/-- serializeHoldingStatus from `src/unnamed/part_004`: code byte, expiry
timestamp, amount, 32-byte tx id, settle quantity, posted flag. -/
def serializeHoldingStatus (hs : HoldingStatus) : List Byte :=
  hs.code :: (leBytes 8 hs.expires ++ leBytes 8 hs.amount ++ hs.txId ++
    leBytes 8 hs.settleQuantity ++ [if hs.posted then 1 else 0])

/-- serializeHolding from `src/unnamed/part_004`: version byte 0, serialized
address, both balances, both timestamps, a 32-bit status count, then the
status records in the map's enumeration order. -/
def serializeHolding (h : Holding) : List Byte :=
  0 :: (h.address.serialize ++ leBytes 8 h.pendingBalance ++
    leBytes 8 h.finalizedBalance ++ leBytes 8 h.createdAt ++
    leBytes 8 h.updatedAt ++ leBytes 4 h.holdingStatuses.length ++
    (h.holdingStatuses.map (fun p => serializeHoldingStatus p.2)).flatten)

/-- deserializeHoldingStatus from `src/unnamed/part_004`; the posted flag is
decoded as Go decodes a bool: nonzero byte means true. -/
def deserializeHoldingStatus (bs : List Byte) :
    Except String (HoldingStatus × List Byte) :=
  match bs with
  | [] => .error "EOF"
  | c :: r0 =>
    match readLE 8 r0 with
    | none => .error "EOF"
    | some (expires, r1) =>
      match readLE 8 r1 with
      | none => .error "EOF"
      | some (amount, r2) =>
        match readBytes 32 r2 with
        | none => .error "EOF"
        | some (txid, r3) =>
          match readLE 8 r3 with
          | none => .error "EOF"
          | some (settle, r4) =>
            match r4 with
            | [] => .error "EOF"
            | p :: r5 => .ok (⟨c, expires, amount, txid, settle, p ≠ 0⟩, r5)

/-- Insertion into the association-list view of a Go map: an existing key's
value is replaced in place, a new key is appended to the enumeration. -/
def mapInsert (l : List (List Byte × HoldingStatus)) (k : List Byte)
    (v : HoldingStatus) : List (List Byte × HoldingStatus) :=
  if (l.map Prod.fst).contains k then
    l.map (fun p => if p.1 = k then (k, v) else p)
  else l ++ [(k, v)]

/-- The status-reading loop of deserializeHolding: each record read is
inserted into the map keyed by its own tx id
(`result.HoldingStatuses[*hs.TxId] = &hs`). -/
def deserializeStatusesAux : Nat → List (List Byte × HoldingStatus) →
    List Byte → Except String (List (List Byte × HoldingStatus) × List Byte)
  | 0, acc, bs => .ok (acc, bs)
  | n + 1, acc, bs =>
    match deserializeHoldingStatus bs with
    | .error e => .error e
    | .ok (hs, rest) => deserializeStatusesAux n (mapInsert acc hs.txId hs) rest

/-- deserializeHolding from `src/unnamed/part_004`: version byte (nonzero is
an "Unknown version" error), address, balances, timestamps, status count,
status records.  Trailing bytes are ignored, as in the source. -/
def deserializeHolding (bs : List Byte) : Except String Holding :=
  match bs with
  | [] => .error "EOF"
  | v :: rest =>
    if v ≠ 0 then .error "Unknown version" else
    match RawAddress.deserializeStep rest with
    | .error e => .error e
    | .ok (addr, r0) =>
      match readLE 8 r0 with
      | none => .error "EOF"
      | some (pending, r1) =>
        match readLE 8 r1 with
        | none => .error "EOF"
        | some (finalized, r2) =>
          match readLE 8 r2 with
          | none => .error "EOF"
          | some (created, r3) =>
            match readLE 8 r3 with
            | none => .error "EOF"
            | some (updated, r4) =>
              match readLE 4 r4 with
              | none => .error "EOF"
              | some (count, r5) =>
                match deserializeStatusesAux count [] r5 with
                | .error e => .error e
                | .ok (statuses, _) =>
                  .ok ⟨addr, pending, finalized, created, updated, statuses⟩

/-- Typing and keying invariants of a cached holding: the address is a
populated PKH address, the numeric fields fit their Go machine types, each
status is keyed by its own tx id (which is how deserialization and the
holdings code build the map), tx ids are 32 bytes, and map keys are
distinct. -/
def WfStatus (s : HoldingStatus) : Prop :=
  s.code < 256 ∧ s.expires < 2 ^ 64 ∧ s.amount < 2 ^ 64 ∧
  s.settleQuantity < 2 ^ 64 ∧ s.txId.length = 32

def WfHolding (h : Holding) : Prop :=
  h.address.scriptType = ScriptTypePKH ∧
  h.address.data.length = ScriptHashLength ∧
  h.pendingBalance < 2 ^ 64 ∧ h.finalizedBalance < 2 ^ 64 ∧
  h.createdAt < 2 ^ 64 ∧ h.updatedAt < 2 ^ 64 ∧
  h.holdingStatuses.length < 2 ^ 32 ∧
  (∀ p ∈ h.holdingStatuses, p.1 = p.2.txId ∧ WfStatus p.2) ∧
  (h.holdingStatuses.map Prod.fst).Nodup

instance : DecidablePred WfStatus := fun s => by
  unfold WfStatus; infer_instance

instance : DecidablePred WfHolding := fun h => by
  unfold WfHolding; infer_instance

/-- Two in-memory holdings denote the same Go value when the scalar fields
agree and the status lists enumerate the same map. -/
def SameGoHolding (h1 h2 : Holding) : Prop :=
  h1.address = h2.address ∧ h1.pendingBalance = h2.pendingBalance ∧
  h1.finalizedBalance = h2.finalizedBalance ∧ h1.createdAt = h2.createdAt ∧
  h1.updatedAt = h2.updatedAt ∧
  h1.holdingStatuses.Perm h2.holdingStatuses

theorem RawAddress.deserializeStep_serialize (ra : RawAddress)
    (rest : List Byte) (ht : ra.scriptType = ScriptTypePKH)
    (hl : ra.data.length = ScriptHashLength) :
    RawAddress.deserializeStep (ra.serialize ++ rest) = .ok (ra, rest) := by
  cases ra with
  | mk t d =>
    simp only at ht hl
    subst ht
    simp only [RawAddress.serialize, List.cons_append]
    rw [RawAddress.deserializeStep]
    rw [bufRead_exact ScriptHashLength d rest (by norm_num [ScriptHashLength]) hl]
    simp

theorem deserializeHoldingStatus_serialize (hs : HoldingStatus)
    (rest : List Byte) (h : WfStatus hs) :
    deserializeHoldingStatus (serializeHoldingStatus hs ++ rest) =
      .ok (hs, rest) := by
  obtain ⟨hc, he, ha, hsq, htl⟩ := h
  cases hs with
  | mk c e a t sq p =>
    simp only at he ha hsq htl
    simp only [serializeHoldingStatus, List.cons_append, List.append_assoc]
    rw [deserializeHoldingStatus]
    rw [readLE_leBytes 8 e _ (by simpa using he)]
    simp only
    rw [readLE_leBytes 8 a _ (by simpa using ha)]
    simp only
    rw [show (32 : Nat) = t.length from htl.symm, readBytes_append]
    simp only
    rw [readLE_leBytes 8 sq _ (by simpa using hsq)]
    simp only [List.singleton_append]
    cases p <;> simp

theorem mapInsert_fresh (l : List (List Byte × HoldingStatus)) (k : List Byte)
    (v : HoldingStatus) (hk : k ∉ l.map Prod.fst) :
    mapInsert l k v = l ++ [(k, v)] := by
  unfold mapInsert
  rw [if_neg]
  simpa using hk

theorem deserializeStatusesAux_serialize
    (l : List (List Byte × HoldingStatus)) :
    ∀ (acc : List (List Byte × HoldingStatus)) (rest : List Byte),
    (∀ p ∈ l, p.1 = p.2.txId ∧ WfStatus p.2) →
    ((acc.map Prod.fst ++ l.map Prod.fst).Nodup) →
    deserializeStatusesAux l.length acc
      ((l.map (fun p => serializeHoldingStatus p.2)).flatten ++ rest) =
      .ok (acc ++ l, rest) := by
  induction l with
  | nil => intro acc rest _ _; simp [deserializeStatusesAux]
  | cons q l ih =>
    intro acc rest hw hnd
    obtain ⟨hk, hwq⟩ := hw q (by simp)
    simp only [List.map_cons, List.flatten_cons, List.append_assoc,
      List.length_cons]
    rw [deserializeStatusesAux]
    rw [deserializeHoldingStatus_serialize q.2 _ hwq]
    simp only
    have hfresh : q.2.txId ∉ acc.map Prod.fst := by
      rw [← hk]
      intro hmem
      have := (List.nodup_append.mp hnd).2.2
      exact this hmem (by simp)
    rw [mapInsert_fresh _ _ _ hfresh]
    have hq : acc ++ [(q.2.txId, q.2)] = acc ++ [q] := by
      rw [← hk]
    rw [hq]
    have hnd' : ((acc ++ [q]).map Prod.fst ++ l.map Prod.fst).Nodup := by
      simpa [List.append_assoc] using hnd
    have := ih (acc ++ [q]) rest (fun p hp => hw p (by simp [hp])) hnd'
    simpa using this

/-- Round trip for well-formed holdings: deserializing a serialization
restores the holding exactly, statuses inserted in the order they were
written; re-serializing that result is therefore byte-identical. -/
theorem deserializeHolding_serializeHolding (h : Holding) (hw : WfHolding h) :
    deserializeHolding (serializeHolding h) = .ok h := by
  obtain ⟨hat, hal, hpb, hfb, hca, hua, hcnt, hst, hnd⟩ := hw
  cases h with
  | mk addr pb fb ca ua sts =>
    simp only at hat hal hpb hfb hca hua hcnt hst hnd
    simp only [serializeHolding]
    rw [deserializeHolding]
    simp only [if_neg (by simp : ¬(0 : Byte) ≠ 0), List.append_assoc]
    rw [RawAddress.deserializeStep_serialize addr _ hat hal]
    simp only
    rw [readLE_leBytes 8 pb _ (by simpa using hpb)]
    simp only
    rw [readLE_leBytes 8 fb _ (by simpa using hfb)]
    simp only
    rw [readLE_leBytes 8 ca _ (by simpa using hca)]
    simp only
    rw [readLE_leBytes 8 ua _ (by simpa using hua)]
    simp only
    rw [readLE_leBytes 4 sts.length _ (by simpa using hcnt)]
    simp only
    have := deserializeStatusesAux_serialize sts [] [] hst (by simpa using hnd)
    rw [List.append_nil] at this
    rw [this]
    simp

/-! ### Concrete holdings used by the C3 and C4 results -/

def txA : List Byte := List.replicate 31 0 ++ [1]
def txB : List Byte := List.replicate 31 0 ++ [2]

def stA : HoldingStatus := ⟨1, 10, 5, txA, 5, false⟩
def stB : HoldingStatus := ⟨1, 20, 7, txB, 7, false⟩

def addrX : RawAddress := ⟨ScriptTypePKH, List.replicate 20 3⟩

def hA : Holding := ⟨addrX, 100, 100, 1, 2, [(txA, stA), (txB, stB)]⟩
def hB : Holding := ⟨addrX, 100, 100, 1, 2, [(txB, stB), (txA, stA)]⟩

/-- C3, counterexample: serialization of a holding is not deterministic in
the order of the status records.  `hA` and `hB` denote the same Go holding
(same scalar fields, same status map), i.e. they are the same input to
`serializeHolding` up to the unspecified map enumeration order, yet the two
enumerations serialize to different byte sequences, so the byte-identity and
determinism asserted by the claim fail. -/
theorem claim_C3_counterexample :
    SameGoHolding hA hB ∧ WfHolding hA ∧ WfHolding hB ∧
    serializeHolding hA ≠ serializeHolding hB := by
  refine ⟨⟨rfl, rfl, rfl, rfl, rfl, ?_⟩, by decide, by decide, by decide⟩
  exact List.Perm.swap _ _ _

/-- C3, amended: for every well-formed holding, deserializing a
serialization restores the holding exactly, and re-serializing the result
with the status records enumerated in the same order in which they were
inserted yields a byte-identical sequence.  (Byte identity holds only up to
the map enumeration order; see the counterexample.) -/
theorem claim_C3 (h h' : Holding) (hw : WfHolding h)
    (hdes : deserializeHolding (serializeHolding h) = Except.ok h') :
    serializeHolding h' = serializeHolding h ∧ h' = h := by
  have hrt := deserializeHolding_serializeHolding h hw
  rw [hrt] at hdes
  cases hdes
  exact ⟨rfl, rfl⟩

set_option maxRecDepth 100000 in
theorem claim_C3_witness :
    WfHolding hA ∧
    deserializeHolding (serializeHolding hA) = Except.ok hA ∧
    serializeHolding hA = serializeHolding hA ∧ hA = hA := by
  refine ⟨by decide, rfl, ?_⟩
  exact claim_C3 hA hA (by decide) rfl

/-- C8: deserialization of a holding whose version byte is nonzero fails
cleanly with an error, before anything else is read. -/
theorem claim_C8 (bs : List Byte) (b : Byte)
    (hhead : bs.head? = some b) (hb : b ≠ 0) :
    deserializeHolding bs = .error "Unknown version" := by
  cases bs with
  | nil => simp at hhead
  | cons v rest =>
    simp only [List.head?_cons, Option.some.injEq] at hhead
    subst hhead
    rw [deserializeHolding]
    simp [hb]

theorem claim_C8_witness :
    ([(1 : Byte)].head? = some 1 ∧ (1 : Byte) ≠ 0) ∧
    deserializeHolding [1] = .error "Unknown version" :=
  ⟨⟨rfl, by decide⟩, claim_C8 [1] 1 rfl (by decide)⟩

/-! ### Holdings cache: Fetch and copyHolding (claim C4)

Fetch in `src/unnamed/part_004` returns `copyHolding(cu.h)` on a cache hit
so that "the object in cache will not be unintentionally modified (by
reference)" (comment in the source).  `copyHolding` copies the struct and
allocates a fresh map, but re-inserts the same `*state.HoldingStatus`
pointers, so the fetched holding and the cached holding share the status
records.  Go pointers are modelled as indices into an explicit heap of
status records. -/

namespace Cache

/-- The Go heap of `state.HoldingStatus` records; a `*HoldingStatus` is an
index into `cells`. -/
structure Heap where
  cells : List HoldingStatus
deriving DecidableEq, Repr

/-- A holding as held in a cache slot (`cacheUpdate.h`): the
`HoldingStatuses` map carries pointers to status records. -/
structure PtrHolding where
  address : RawAddress
  pendingBalance : Nat
  finalizedBalance : Nat
  createdAt : Nat
  updatedAt : Nat
  holdingStatuses : List (List Byte × Nat)
deriving DecidableEq, Repr

/-- copyHolding from `src/unnamed/part_004`: `result := *h` copies the
struct, then a fresh map is allocated and every key is re-inserted mapping
to the same `*state.HoldingStatus` pointer as the source map
(`result.HoldingStatuses[key] = val`). -/
def copyHolding (h : PtrHolding) : PtrHolding :=
  { h with holdingStatuses := h.holdingStatuses.map (fun p => (p.1, p.2)) }

/-- The cache-hit path of Fetch from `src/unnamed/part_004`: the caller
receives `copyHolding cu.h`. -/
def Fetch (cached : PtrHolding) : PtrHolding :=
  copyHolding cached

/-- Mutation of the amount of one status record reached through a holding's
status map, i.e. Go code doing `h.HoldingStatuses[txid].Amount = amt` on a
holding it obtained from Fetch. -/
def setStatusAmount (hp : Heap) (h : PtrHolding) (txid : List Byte)
    (amt : Nat) : Heap :=
  match h.holdingStatuses.lookup txid with
  | none => hp
  | some ptr =>
    ⟨hp.cells.set ptr { hp.cells.getD ptr ⟨0, 0, 0, [], 0, false⟩ with
      amount := amt }⟩

/-- The observable content of a holding: each status key paired with the
record its pointer designates. -/
def view (hp : Heap) (h : PtrHolding) : List (List Byte × Option HoldingStatus) :=
  h.holdingStatuses.map (fun p => (p.1, hp.cells.get? p.2))

def heap0 : Heap := ⟨[stA]⟩

def cached0 : PtrHolding := ⟨addrX, 100, 100, 1, 2, [(txA, 0)]⟩

/-- C4, evaluated at the failing input: a caller fetches the cached holding
`cached0` (one status, amount 5) and sets the amount of that status to 9
through the returned holding; the cached holding's observable content
changes, because `copyHolding` shares the status records by pointer.  This
contradicts both the spec (readers obtain a deep copy) and the source's own
comment on Fetch. -/
theorem claim_C4_bug :
    Fetch cached0 = copyHolding cached0 ∧
    view (setStatusAmount heap0 (Fetch cached0) txA 9) cached0 ≠
      view heap0 cached0 := by
  exact ⟨rfl, by decide⟩

end Cache

/-! ### TxTracker (`src/unnamed/part_001`, package `data`; claims C9, C10)

The tracker's `txids map[bitcoin.Hash32]time.Time` is represented by a list
of key/time pairs in one of its enumeration orders.  `MemPool.AddRequest`
(whose definition is elsewhere) is consumed as an oracle: for each hash it
answers `(alreadyHave, shouldRequest)`.  The get-data wire message is a list
of hashes; `wire.MsgGetData.AddInvVect` (package `pkg/wire`, not under
`src/`) is modelled from the spec: get-data messages have a bounded number
of items per wire message, `maxInv`, and adding to a full message fails
(the protocol value is 50000). -/

namespace Spynode

abbrev Hash32 := Nat

/-- TxTracker from `src/unnamed/part_001`. -/
structure TxTracker where
  txids : List (Hash32 × Nat)
deriving DecidableEq, Repr

/-- TxTracker.Add from `src/unnamed/part_001`: the txid is inserted with the
current time only when not already tracked. -/
def TxTracker.add (t : TxTracker) (txid : Hash32) (now : Nat) : TxTracker :=
  if (t.txids.map Prod.fst).contains txid then t
  else ⟨t.txids ++ [(txid, now)]⟩

/-- Intermediate state of the Check sweep. -/
structure LoopOut where
  resp : List (List Hash32)
  inv : List Hash32
  failed : Bool
  kept : List (Hash32 × Nat)
deriving DecidableEq, Repr

/-- The loop body of TxTracker.Check from `src/unnamed/part_001`.  For each
tracked hash it asks the mempool: if the tx is already present the entry is
dropped; if this node should request, the hash is added to the get-data
message under construction — emitting the full message and starting a new
one when the add fails, and returning an error (without flushing the fresh
message and keeping the entry and all later entries tracked) when the retry
fails again; otherwise the entry is kept for a later sweep. -/
def checkLoop (mp : Hash32 → Bool × Bool) (maxInv : Nat) :
    List (Hash32 × Nat) → List (List Hash32) → List Hash32 →
    List (Hash32 × Nat) → LoopOut
  | [], resp, inv, kept => ⟨resp, inv, false, kept⟩
  | (txid, tm) :: rest, resp, inv, kept =>
    if (mp txid).1 then
      checkLoop mp maxInv rest resp inv kept
    else if (mp txid).2 then
      if inv.length + 1 > maxInv then
        if 0 + 1 > maxInv then
          ⟨resp ++ [inv], [], true, kept ++ (txid, tm) :: rest⟩
        else
          checkLoop mp maxInv rest (resp ++ [inv]) [txid] kept
      else
        checkLoop mp maxInv rest resp (inv ++ [txid]) kept
    else
      checkLoop mp maxInv rest resp inv (kept ++ [(txid, tm)])

/-- Result of TxTracker.Check: the emitted get-data messages, whether an
error was returned, and the tracker contents afterwards. -/
structure CheckOut where
  messages : List (List Hash32)
  failed : Bool
  tracker : TxTracker
deriving DecidableEq, Repr

/-- TxTracker.Check from `src/unnamed/part_001`: sweep all tracked hashes,
then flush the message under construction if it is nonempty. -/
def TxTracker.check (t : TxTracker) (mp : Hash32 → Bool × Bool)
    (maxInv : Nat) : CheckOut :=
  let out := checkLoop mp maxInv t.txids [] [] []
  if out.failed then ⟨out.resp, true, ⟨out.kept⟩⟩
  else if out.inv.length > 0 then ⟨out.resp ++ [out.inv], false, ⟨out.kept⟩⟩
  else ⟨out.resp, false, ⟨out.kept⟩⟩

theorem checkLoop_no_failure (mp : Hash32 → Bool × Bool) (maxInv : Nat)
    (h1 : 1 ≤ maxInv) (entries : List (Hash32 × Nat)) :
    ∀ resp inv kept,
      (checkLoop mp maxInv entries resp inv kept).failed = false := by
  induction entries with
  | nil => intro resp inv kept; simp [checkLoop]
  | cons e rest ih =>
    intro resp inv kept
    obtain ⟨txid, tm⟩ := e
    rw [checkLoop]
    split
    · exact ih _ _ _
    · split
      · split
        · split
          · omega
          · exact ih _ _ _
        · exact ih _ _ _
      · exact ih _ _ _

theorem checkLoop_already_have (mp : Hash32 → Bool × Bool) (maxInv : Nat)
    (txid : Hash32) (hmp : (mp txid).1 = true)
    (entries : List (Hash32 × Nat)) :
    ∀ resp inv kept,
      (∀ m ∈ resp, txid ∉ m) → txid ∉ inv → (∀ tm, (txid, tm) ∉ kept) →
      (checkLoop mp maxInv entries resp inv kept).failed = false →
      (∀ m ∈ (checkLoop mp maxInv entries resp inv kept).resp, txid ∉ m) ∧
      txid ∉ (checkLoop mp maxInv entries resp inv kept).inv ∧
      (∀ tm, (txid, tm) ∉ (checkLoop mp maxInv entries resp inv kept).kept) := by
  induction entries with
  | nil =>
    intro resp inv kept hr hi hk _
    exact ⟨hr, hi, hk⟩
  | cons e rest ih =>
    intro resp inv kept hr hi hk hf
    obtain ⟨h, tm⟩ := e
    by_cases hh : h = txid
    · subst hh
      rw [checkLoop] at hf ⊢
      rw [if_pos hmp] at hf ⊢
      exact ih _ _ _ hr hi hk hf
    · rw [checkLoop] at hf ⊢
      by_cases hb1 : (mp h).1 = true
      · rw [if_pos hb1] at hf ⊢
        exact ih _ _ _ hr hi hk hf
      · rw [if_neg hb1] at hf ⊢
        by_cases hb2 : (mp h).2 = true
        · rw [if_pos hb2] at hf ⊢
          by_cases hb3 : inv.length + 1 > maxInv
          · rw [if_pos hb3] at hf ⊢
            by_cases hb4 : 0 + 1 > maxInv
            · rw [if_pos hb4] at hf
              simp at hf
            · rw [if_neg hb4] at hf ⊢
              refine ih _ _ _ ?_ ?_ hk hf
              · intro m hm
                rcases List.mem_append.mp hm with hm | hm
                · exact hr m hm
                · simp at hm; subst hm; exact hi
              · simp [hh, Ne.symm hh]
          · rw [if_neg hb3] at hf ⊢
            refine ih _ _ _ hr ?_ hk hf
            intro hmem
            rcases List.mem_append.mp hmem with hm | hm
            · exact hi hm
            · simp at hm; exact hh hm.symm
        · rw [if_neg hb2] at hf ⊢
          refine ih _ _ _ hr hi ?_ hf
          intro tm' hmem
          rcases List.mem_append.mp hmem with hm | hm
          · exact hk tm' hm
          · simp at hm; exact hh hm.1.symm

theorem checkLoop_should_request (mp : Hash32 → Bool × Bool) (maxInv : Nat)
    (txid : Hash32) (hmp1 : (mp txid).1 = false) (hmp2 : (mp txid).2 = true)
    (h1 : 1 ≤ maxInv) (entries : List (Hash32 × Nat)) :
    ∀ resp inv kept,
      ((∃ tm, (txid, tm) ∈ entries) ∨ (∃ m ∈ resp, txid ∈ m) ∨ txid ∈ inv) →
      (∀ tm, (txid, tm) ∉ kept) →
      ((∃ m ∈ (checkLoop mp maxInv entries resp inv kept).resp, txid ∈ m) ∨
        txid ∈ (checkLoop mp maxInv entries resp inv kept).inv) ∧
      (∀ tm, (txid, tm) ∉ (checkLoop mp maxInv entries resp inv kept).kept) := by
  induction entries with
  | nil =>
    intro resp inv kept hsrc hk
    rcases hsrc with ⟨tm, htm⟩ | hsrc
    · simp at htm
    · exact ⟨hsrc, hk⟩
  | cons e rest ih =>
    intro resp inv kept hsrc hk
    obtain ⟨h, tm⟩ := e
    by_cases hh : h = txid
    · subst hh
      rw [checkLoop]
      rw [if_neg (by simp [hmp1]), if_pos hmp2]
      split
      · rw [if_neg (by omega)]
        refine ih _ _ _ (.inr (.inr (by simp))) hk
      · refine ih _ _ _ (.inr (.inr (by simp))) hk
    · rw [checkLoop]
      have hsrc' : (∃ tm, (txid, tm) ∈ rest) ∨ (∃ m ∈ resp, txid ∈ m) ∨ txid ∈ inv := by
        rcases hsrc with ⟨tm', htm'⟩ | hsrc
        · rcases List.mem_cons.mp htm' with heq | hmem
          · cases heq; simp at hh
          · exact .inl ⟨tm', hmem⟩
        · exact .inr hsrc
      split
      · exact ih _ _ _ hsrc' hk
      · split
        · split
          · split
            · omega
            · refine ih _ _ _ ?_ hk
              rcases hsrc' with he | ⟨m, hm, hmm⟩ | hi
              · exact .inl he
              · exact .inr (.inl ⟨m, by simp [hm], hmm⟩)
              · exact .inr (.inl ⟨inv, by simp, hi⟩)
          · refine ih _ _ _ ?_ hk
            rcases hsrc' with he | ⟨m, hm, hmm⟩ | hi
            · exact .inl he
            · exact .inr (.inl ⟨m, hm, hmm⟩)
            · exact .inr (.inr (by simp [hi]))
        · refine ih _ _ _ hsrc' ?_
          intro tm' hmem
          rcases List.mem_append.mp hmem with hm | hm
          · exact hk tm' hm
          · simp at hm; exact hh hm.1.symm

theorem checkLoop_wait (mp : Hash32 → Bool × Bool) (maxInv : Nat)
    (txid : Hash32) (tm : Nat) (hmp : mp txid = (false, false))
    (entries : List (Hash32 × Nat)) :
    ∀ resp inv kept,
      ((txid, tm) ∈ entries ∨ (txid, tm) ∈ kept) →
      (txid, tm) ∈ (checkLoop mp maxInv entries resp inv kept).kept := by
  induction entries with
  | nil =>
    intro resp inv kept hsrc
    rcases hsrc with h | h
    · simp at h
    · simpa [checkLoop] using h
  | cons e rest ih =>
    intro resp inv kept hsrc
    obtain ⟨h, tmh⟩ := e
    by_cases hh : h = txid ∧ tmh = tm
    · obtain ⟨hh1, hh2⟩ := hh
      subst hh1; subst hh2
      rw [checkLoop]
      rw [if_neg (by simp [hmp]), if_neg (by simp [hmp])]
      exact ih _ _ _ (.inr (by simp))
    · have hsrc' : (txid, tm) ∈ rest ∨ (txid, tm) ∈ kept := by
        rcases hsrc with hm | hm
        · rcases List.mem_cons.mp hm with heq | hmem
          · cases heq; simp at hh
          · exact .inl hmem
        · exact .inr hm
      rw [checkLoop]
      split
      · exact ih _ _ _ hsrc'
      · split
        · split
          · split
            · simp only
              rcases hsrc' with hm | hm
              · simp [hm]
              · simp [hm]
            · exact ih _ _ _ hsrc'
          · exact ih _ _ _ hsrc'
        · refine ih _ _ _ ?_
          rcases hsrc' with hm | hm
          · exact .inl hm
          · exact .inr (by simp [hm])

theorem checkLoop_messages_full (mp : Hash32 → Bool × Bool) (maxInv : Nat)
    (entries : List (Hash32 × Nat)) :
    ∀ resp inv kept,
      (∀ m ∈ resp, m.length = maxInv) → inv.length ≤ maxInv →
      (∀ m ∈ (checkLoop mp maxInv entries resp inv kept).resp,
        m.length = maxInv) ∧
      (checkLoop mp maxInv entries resp inv kept).inv.length ≤ maxInv := by
  induction entries with
  | nil =>
    intro resp inv kept hr hi
    exact ⟨hr, hi⟩
  | cons e rest ih =>
    intro resp inv kept hr hi
    obtain ⟨h, tm⟩ := e
    rw [checkLoop]
    split
    · exact ih _ _ _ hr hi
    · split
      · split
        · rename_i hover
          split
          · constructor
            · intro m hm
              rcases List.mem_append.mp hm with hm | hm
              · exact hr m hm
              · simp at hm; subst hm; omega
            · simp
          · refine ih _ _ _ ?_ (by simp; omega)
            intro m hm
            rcases List.mem_append.mp hm with hm | hm
            · exact hr m hm
            · simp at hm; subst hm; omega
        · rename_i hover
          refine ih _ _ _ hr (by simp; omega)
      · exact ih _ _ _ hr hi

theorem checkLoop_zero_limit (mp : Hash32 → Bool × Bool)
    (entries : List (Hash32 × Nat)) :
    ∀ resp inv kept,
      (∃ p ∈ entries, mp p.1 = (false, true)) →
      (checkLoop mp 0 entries resp inv kept).failed = true := by
  induction entries with
  | nil =>
    intro resp inv kept hex
    simp at hex
  | cons e rest ih =>
    intro resp inv kept hex
    obtain ⟨h, tm⟩ := e
    rw [checkLoop]
    split
    · rename_i hbr
      refine ih _ _ _ ?_
      rcases hex with ⟨p, hp, hpe⟩
      rcases List.mem_cons.mp hp with heq | hmem
      · subst heq; simp only at hpe; rw [hpe] at hbr; simp at hbr
      · exact ⟨p, hmem, hpe⟩
    · split
      · rw [if_pos (by omega), if_pos (by omega)]
      · rename_i hbr1 hbr2
        refine ih _ _ _ ?_
        rcases hex with ⟨p, hp, hpe⟩
        rcases List.mem_cons.mp hp with heq | hmem
        · subst heq; simp only at hpe
          rw [hpe] at hbr2; simp at hbr2
        · exact ⟨p, hmem, hpe⟩

/-- C10: TxTracker.Add is idempotent: adding a hash that is already tracked
leaves the tracker unchanged, preserving the recorded first-seen time. -/
theorem claim_C10 (t : TxTracker) (txid : Hash32) (now : Nat)
    (h : txid ∈ t.txids.map Prod.fst) :
    t.add txid now = t := by
  unfold TxTracker.add
  rw [if_pos]
  simpa using h

theorem claim_C10_witness :
    (5 : Hash32) ∈ (TxTracker.mk [(5, 1)]).txids.map Prod.fst ∧
    (TxTracker.mk [(5, 1)]).add 5 99 = TxTracker.mk [(5, 1)] :=
  ⟨by decide, claim_C10 ⟨[(5, 1)]⟩ 5 99 (by decide)⟩

/-- C9: for every hash in the tracker when Check runs, with the wire
message limit `maxInv` at its protocol value (at least 1): an
already-present tx is dropped without being requested; a tx the mempool
designates this node to request appears in an emitted get-data message and
is dropped; any other tx stays tracked; no error occurs.  Every emitted
message is nonempty and within the limit, and every message except possibly
the last is exactly full (a full message is emitted and a new one started).
With a zero limit, an item that still fails to fit into the fresh message
produces an error. -/
theorem claim_C9 (t : TxTracker) (mp : Hash32 → Bool × Bool) (maxInv : Nat) :
    (1 ≤ maxInv →
      ((t.check mp maxInv).failed = false) ∧
      (∀ txid tm, (txid, tm) ∈ t.txids →
        (((mp txid).1 = true →
          (∀ m ∈ (t.check mp maxInv).messages, txid ∉ m) ∧
          (∀ tm', (txid, tm') ∉ (t.check mp maxInv).tracker.txids)) ∧
        ((mp txid).1 = false → (mp txid).2 = true →
          (∃ m ∈ (t.check mp maxInv).messages, txid ∈ m) ∧
          (∀ tm', (txid, tm') ∉ (t.check mp maxInv).tracker.txids)) ∧
        ((mp txid).1 = false → (mp txid).2 = false →
          (txid, tm) ∈ (t.check mp maxInv).tracker.txids))) ∧
      (∀ m ∈ (t.check mp maxInv).messages, m ≠ [] ∧ m.length ≤ maxInv) ∧
      (∀ m ∈ (t.check mp maxInv).messages.dropLast, m.length = maxInv)) ∧
    (maxInv = 0 → (∃ p ∈ t.txids, mp p.1 = (false, true)) →
      (t.check mp maxInv).failed = true) := by
  constructor
  · intro h1
    have hf := checkLoop_no_failure mp maxInv h1 t.txids [] [] []
    have hcheck : t.check mp maxInv =
        ⟨if (checkLoop mp maxInv t.txids [] [] []).inv.length > 0 then
            (checkLoop mp maxInv t.txids [] [] []).resp ++
              [(checkLoop mp maxInv t.txids [] [] []).inv]
          else (checkLoop mp maxInv t.txids [] [] []).resp,
          false, ⟨(checkLoop mp maxInv t.txids [] [] []).kept⟩⟩ := by
      rw [TxTracker.check]
      simp only [hf, Bool.false_eq_true, if_false, gt_iff_lt]
      split <;> rfl
    have hmsgs := checkLoop_messages_full mp maxInv t.txids [] [] []
      (by simp) (by simp)
    refine ⟨by rw [hcheck], ?_, ?_, ?_⟩
    · intro txid tm htm
      refine ⟨?_, ?_, ?_⟩
      · intro hmp1
        obtain ⟨hr, hi, hk⟩ := checkLoop_already_have mp maxInv txid hmp1
          t.txids [] [] [] (by simp) (by simp) (by simp) hf
        rw [hcheck]
        constructor
        · intro m hm
          simp only at hm
          split at hm
          · rcases List.mem_append.mp hm with hm | hm
            · exact hr m hm
            · simp at hm; subst hm; exact hi
          · exact hr m hm
        · intro tm'
          exact hk tm'
      · intro hmp1 hmp2
        obtain ⟨hin, hk⟩ := checkLoop_should_request mp maxInv txid hmp1 hmp2
          h1 t.txids [] [] [] (.inl ⟨tm, htm⟩) (by simp)
        rw [hcheck]
        constructor
        · rcases hin with ⟨m, hm, hmm⟩ | hi
          · refine ⟨m, ?_, hmm⟩
            simp only
            split
            · exact List.mem_append.mpr (.inl hm)
            · exact hm
          · refine ⟨(checkLoop mp maxInv t.txids [] [] []).inv, ?_, hi⟩
            simp only
            rw [if_pos (by cases hc : (checkLoop mp maxInv t.txids [] [] []).inv with
              | nil => rw [hc] at hi; simp at hi
              | cons a l => simp [hc])]
            exact List.mem_append.mpr (.inr (by simp))
        · intro tm'
          exact hk tm'
      · intro hmp1 hmp2
        have hmp : mp txid = (false, false) := by
          rcases hc : mp txid with ⟨x, y⟩
          rw [hc] at hmp1 hmp2
          simp only at hmp1 hmp2
          rw [hmp1, hmp2]
        have := checkLoop_wait mp maxInv txid tm hmp t.txids [] [] []
          (.inl htm)
        rw [hcheck]
        exact this
    · intro m hm
      rw [hcheck] at hm
      simp only at hm
      split at hm
      · rcases List.mem_append.mp hm with hm | hm
        · have := hmsgs.1 m hm
          constructor
          · intro hnil; rw [hnil] at this; simp at this; omega
          · omega
        · simp at hm; subst hm
          rename_i hpos
          constructor
          · intro hnil; rw [hnil] at hpos; simp at hpos
          · exact hmsgs.2
      · have := hmsgs.1 m hm
        constructor
        · intro hnil; rw [hnil] at this; simp at this; omega
        · omega
    · intro m hm
      rw [hcheck] at hm
      simp only at hm
      split at hm
      · rw [List.dropLast_concat] at hm
        exact hmsgs.1 m hm
      · exact hmsgs.1 m ((List.dropLast_sublist _).mem hm)
  · intro h0 hex
    subst h0
    have := checkLoop_zero_limit mp t.txids [] [] [] hex
    rw [TxTracker.check]
    simp [this]

def trackerW : TxTracker := ⟨[(1, 10), (2, 20), (3, 30)]⟩

/-- Mempool oracle used by the C9 witness: hash 1 is already present,
hash 2 should be requested by this node, hash 3 should wait. -/
def mpW : Hash32 → Bool × Bool := fun h =>
  if h = 1 then (true, false)
  else if h = 2 then (false, true)
  else (false, false)

theorem claim_C9_witness :
    (1 : Nat) ≤ 2 ∧
    (((trackerW.check mpW 2).failed = false) ∧
      (∀ txid tm, (txid, tm) ∈ trackerW.txids →
        (((mpW txid).1 = true →
          (∀ m ∈ (trackerW.check mpW 2).messages, txid ∉ m) ∧
          (∀ tm', (txid, tm') ∉ (trackerW.check mpW 2).tracker.txids)) ∧
        ((mpW txid).1 = false → (mpW txid).2 = true →
          (∃ m ∈ (trackerW.check mpW 2).messages, txid ∈ m) ∧
          (∀ tm', (txid, tm') ∉ (trackerW.check mpW 2).tracker.txids)) ∧
        ((mpW txid).1 = false → (mpW txid).2 = false →
          (txid, tm) ∈ (trackerW.check mpW 2).tracker.txids))) ∧
      (∀ m ∈ (trackerW.check mpW 2).messages, m ≠ [] ∧ m.length ≤ 2) ∧
      (∀ m ∈ (trackerW.check mpW 2).messages.dropLast, m.length = 2)) :=
  ⟨by norm_num, (claim_C9 trackerW mpW 2).1 (by norm_num)⟩

end Spynode

/-! ### Transfer handling (`src/cmd/smartcontractd/handlers/transfer.go`;
claims C1, C2, C5, C6, C7)

Addresses are abstracted to opaque identifiers: an `Addr` is a decoded
`bitcoin.RawAddress`, `0` standing for the empty address.  The embedding
represents the address byte strings of the payload by their decoded
addresses, so `bitcoin.DecodeRawAddress` and `RawAddress.Hash` — which fail
only on malformed bytes and unknown script templates, both excluded by this
abstraction — are total, and the hash of an address is the address itself.
`txbuilder` output helpers (`AddDustOutput`, `AddPaymentOutput`,
`AddValueToOutput`; only `pkg/txbuilder/inputs.go` is under `src/`) append
to or update the output list and cannot fail. -/

namespace Transfer

abbrev Addr := Nat

/-- actions.QuantityIndexField: an input index into the transfer tx and a
token quantity. -/
structure QuantityIndexField where
  index : Nat
  quantity : Nat
deriving DecidableEq, Repr

/-- actions.AssetReceiverField: a receiving address and a token quantity. -/
structure AssetReceiverField where
  address : Addr
  quantity : Nat
deriving DecidableEq, Repr

/-- actions.AssetTransferField. -/
structure AssetTransferField where
  assetType : String
  assetCode : List Nat
  contractIndex : Nat
  assetSenders : List QuantityIndexField
  assetReceivers : List AssetReceiverField
deriving DecidableEq, Repr

/-- actions.Transfer, with the fields the handlers read.  An absent
exchange-fee address is the empty address 0. -/
structure TransferFields where
  assets : List AssetTransferField
  offerExpiry : Nat
  exchangeFeeAddress : Addr
  exchangeFee : Nat
deriving DecidableEq, Repr

/-- An input of the inspected transfer tx: its sender address and UTXO
value. -/
structure TxInput where
  address : Addr
  value : Nat
deriving DecidableEq, Repr

/-- An output of the inspected transfer tx: the address of its locking
script and its value. -/
structure TxOutput where
  address : Addr
  value : Nat
deriving DecidableEq, Repr

/-- inspector.Transaction, with the fields the handlers read. -/
structure InspectorTx where
  txId : Nat
  inputs : List TxInput
  outputs : List TxOutput
  rejectCode : Nat
deriving DecidableEq, Repr

/-- firstContractOutputIndex from transfer.go: walk the asset transfers and
return the contract index of the first entry that is not bitcoin
(`AssetType != "BSV"`), has a nonempty asset code, and whose contract index
is within the transfer tx outputs; `0x0000ffff` when there is none. -/
def firstContractOutputIndex : List AssetTransferField → InspectorTx → Nat
  | [], _ => 0xffff
  | a :: rest, ttx =>
    if a.assetType ≠ "BSV" ∧ a.assetCode.length ≠ 0 ∧
        a.contractIndex < ttx.outputs.length then
      a.contractIndex
    else firstContractOutputIndex rest ttx

/-! #### Holdings ledger operations used by the transfer handlers

Package `internal/holdings` (GetHolding, AddDebit, AddDeposit, RevertStatus,
SafeBalance) is not under `src/`; the definitions below are modelled from
the spec (section 4.2) and carry doc comments saying so.  The error cases
and their precedence are the ones the handler code in transfer.go
distinguishes. -/

inductive HoldingErr
  | insufficient
  | frozen
  | locked
  | duplicate
deriving DecidableEq, Repr

inductive StatusCode
  | pendingDebit
  | pendingDeposit
  | frozenStatus
  | lockedStatus
deriving DecidableEq, Repr

structure LedgerStatus where
  code : StatusCode
  statusTxId : Nat
  amount : Nat
  expires : Nat
deriving DecidableEq, Repr

structure LedgerHolding where
  finalizedBalance : Nat
  pendingBalance : Nat
  statuses : List LedgerStatus
deriving DecidableEq, Repr

/-- Modelled from the spec: SafeBalance (internal/holdings, not under src/)
is the available-to-spend balance,
finalized_balance − Σ(pending-debit amounts) − Σ(active frozen amounts). -/
def SafeBalance (h : LedgerHolding) (now : Nat) : Nat :=
  h.finalizedBalance -
    ((h.statuses.filter (fun s => s.code == StatusCode.pendingDebit)).map
      (fun s => s.amount)).sum -
    ((h.statuses.filter (fun s => s.code == StatusCode.frozenStatus &&
      decide (now < s.expires))).map (fun s => s.amount)).sum

/-- Modelled from the spec: AddDebit (internal/holdings, not under src/)
records a pending-debit status and subtracts from the pending balance; a
debit against an actively frozen holding fails with holdings-frozen,
against a locked holding with holdings-locked, a debit exceeding
SafeBalance with insufficient holdings, and a second status for the same
tx id is an error.  With the single-contract flag the debit finalizes
immediately without a pending status. -/
def AddDebit (h : LedgerHolding) (txid qty : Nat) (single : Bool)
    (now : Nat) : Except HoldingErr LedgerHolding :=
  if h.statuses.any (fun s => s.code == StatusCode.frozenStatus &&
      decide (now < s.expires)) then .error .frozen
  else if h.statuses.any (fun s => s.code == StatusCode.lockedStatus &&
      decide (now < s.expires)) then .error .locked
  else if SafeBalance h now < qty then .error .insufficient
  else if h.statuses.any (fun s => decide (s.statusTxId = txid) &&
      (s.code == StatusCode.pendingDebit ||
        s.code == StatusCode.pendingDeposit)) then .error .duplicate
  else if single then
    .ok { h with finalizedBalance := h.finalizedBalance - qty,
                 pendingBalance := h.pendingBalance - qty }
  else
    .ok { h with pendingBalance := h.pendingBalance - qty,
                 statuses := h.statuses ++
                   [⟨StatusCode.pendingDebit, txid, qty, 0⟩] }

/-- Modelled from the spec: AddDeposit (internal/holdings, not under src/)
mirrors AddDebit on the receiving side; only a lock blocks a deposit, and a
second status for the same tx id is an error. -/
def AddDeposit (h : LedgerHolding) (txid qty : Nat) (single : Bool)
    (now : Nat) : Except HoldingErr LedgerHolding :=
  if h.statuses.any (fun s => s.code == StatusCode.lockedStatus &&
      decide (now < s.expires)) then .error .locked
  else if h.statuses.any (fun s => decide (s.statusTxId = txid) &&
      (s.code == StatusCode.pendingDebit ||
        s.code == StatusCode.pendingDeposit)) then .error .duplicate
  else if single then
    .ok { h with finalizedBalance := h.finalizedBalance + qty,
                 pendingBalance := h.pendingBalance + qty }
  else
    .ok { h with pendingBalance := h.pendingBalance + qty,
                 statuses := h.statuses ++
                   [⟨StatusCode.pendingDeposit, txid, qty, 0⟩] }

/-- Modelled from the spec: RevertStatus (internal/holdings, not under
src/) removes the pending status recorded for the tx id, restoring the
holding to its prior state; reverting an absent status is an error. -/
def RevertStatus (h : LedgerHolding) (txid : Nat) :
    Except HoldingErr LedgerHolding :=
  match h.statuses.find? (fun s => decide (s.statusTxId = txid) &&
      (s.code == StatusCode.pendingDebit ||
        s.code == StatusCode.pendingDeposit)) with
  | none => .error .duplicate
  | some s =>
    let rest := h.statuses.filter (fun t => !(decide (t.statusTxId = txid) &&
      (t.code == StatusCode.pendingDebit ||
        t.code == StatusCode.pendingDeposit)))
    match s.code with
    | StatusCode.pendingDebit =>
      .ok { h with pendingBalance := h.pendingBalance + s.amount,
                   statuses := rest }
    | _ =>
      .ok { h with pendingBalance := h.pendingBalance - s.amount,
                   statuses := rest }

/-- Contract state read by the handlers (`contract.Retrieve`, package
internal/contract, consumed as environment). -/
structure ContractState where
  movedToEmpty : Bool
  freezePeriod : Nat
  contractExpiration : Nat
  contractFee : Nat
  administrationAddress : Addr
deriving DecidableEq, Repr

/-- Asset state read by addSettlementData (`asset.Retrieve` and
`asset.IsTransferable`, package internal/asset, consumed as environment). -/
structure AssetState where
  transfersPermitted : Bool
  transferable : Bool
deriving DecidableEq, Repr

/-- The handler environment: contract state, asset lookup by asset code,
the holdings store (GetHolding creates a zero holding on first touch, so it
is total), the contract fee address and the dust limit from the node
configuration. -/
structure Env where
  contract : ContractState
  assetLookup : List Nat → Option AssetState
  getHolding : List Nat → Addr → LedgerHolding
  feeAddress : Addr
  dustLimit : Nat

/-- Rejection codes (actions.Rejections*) as an abstract enumeration;
`preprocess` carries a numeric pre-processing reject code taken from the
inspected tx. -/
inductive RejectCode
  | msgMalformed
  | transferExpired
  | insufficientQuantity
  | holdingsFrozen
  | holdingsLocked
  | contractMoved
  | contractFrozen
  | contractExpired
  | insufficientTxFeeFunding
  | timeout
  | assetNotPermitted
  | assetNotTransferable
  | preprocess (code : Nat)
deriving DecidableEq, Repr

/-- Go errors as the handlers see them: node.NewError carries a rejection
code recoverable with node.ErrorCode (the error helpers of
internal/platform/node are not under src/; this mirrors exactly how
transfer.go constructs and inspects them); every other error is plain. -/
inductive GoErr
  | node (code : RejectCode) (text : String)
  | plain (msg : String)
deriving DecidableEq, Repr

/-- An output of the settlement tx under construction.  `isPayload` marks
the Settlement OP_RETURN placeholder, whose locking script carries no
address. -/
structure SettleOutput where
  address : Addr
  value : Nat
  isPayload : Bool
deriving DecidableEq, Repr

/-- txbuilder.AddValueToOutput (package pkg/txbuilder, not under src/):
adds value to an existing output. -/
def addValueToOutput (outs : List SettleOutput) (idx : Nat) (v : Nat) :
    List SettleOutput :=
  outs.set idx { outs.getD idx ⟨0, 0, false⟩ with
    value := (outs.getD idx ⟨0, 0, false⟩).value + v }

/-- The inputs loop of buildSettlementTx: one settlement input per involved
contract, spending that contract's transfer output.  Entries with the
sentinel contract index or denoting bitcoin are skipped; an out-of-range
contract index is an error; an already-used output is skipped. -/
def buildInputs (ttx : InspectorTx) :
    List AssetTransferField → List Nat → Except GoErr (List Nat)
  | [], used => .ok used
  | a :: rest, used =>
    if a.contractIndex = 0xffff ∨
        (a.assetType = "BSV" ∧ a.assetCode.length = 0) then
      buildInputs ttx rest used
    else if ttx.outputs.length ≤ a.contractIndex then
      .error (.plain "Transfer contract index out of range")
    else if used.contains a.contractIndex then
      buildInputs ttx rest used
    else
      buildInputs ttx rest (used ++ [a.contractIndex])

/-- State of the outputs loop of buildSettlementTx: the settlement outputs
built so far, the address-to-output-index map, and the remaining bitcoin
balance of the first contract's output. -/
structure OutState where
  outs : List SettleOutput
  addrs : List (Addr × Nat)
  contractBalance : Nat
deriving DecidableEq, Repr

/-- The sender part of the outputs loop of buildSettlementTx: each sender
gets a dust output, added once per address (the dead `assetBalance`
accumulator of the source, which is never read, is omitted). -/
def addSenderOutputs (ttx : InspectorTx) (dustLimit : Nat) :
    List QuantityIndexField → OutState → Except GoErr OutState
  | [], st => .ok st
  | sender :: rest, st =>
    match ttx.inputs.get? sender.index with
    | none => .error (.plain "Transfer sender index out of range")
    | some inp =>
      if (st.addrs.map Prod.fst).contains inp.address then
        addSenderOutputs ttx dustLimit rest st
      else
        addSenderOutputs ttx dustLimit rest
          { st with addrs := st.addrs ++ [(inp.address, st.outs.length)],
                    outs := st.outs ++ [⟨inp.address, dustLimit, false⟩] }

/-- The receiver part of the outputs loop of buildSettlementTx.  For a
bitcoin asset each receiver quantity is debited from the remaining contract
balance — more than the remaining balance is the error "Transfer sent more
bitcoin than was funded to contract" — and routed to the receiver's output;
a token receiver gets a dust output. -/
def addReceiverOutputs (dustLimit : Nat) (bitcoin : Bool) :
    List AssetReceiverField → OutState → Except GoErr OutState
  | [], st => .ok st
  | r :: rest, st =>
    if bitcoin ∧ st.contractBalance < r.quantity then
      .error (.plain "Transfer sent more bitcoin than was funded to contract")
    else
      let st1 := if bitcoin then
          { st with contractBalance := st.contractBalance - r.quantity }
        else st
      match st1.addrs.lookup r.address with
      | some idx =>
        if bitcoin then
          addReceiverOutputs dustLimit bitcoin rest
            { st1 with outs := addValueToOutput st1.outs idx r.quantity }
        else
          addReceiverOutputs dustLimit bitcoin rest st1
      | none =>
        addReceiverOutputs dustLimit bitcoin rest
          { st1 with addrs := st1.addrs ++ [(r.address, st1.outs.length)],
                     outs := st1.outs ++
                       [if bitcoin then ⟨r.address, r.quantity, false⟩
                        else ⟨r.address, dustLimit, false⟩] }

/-- The outputs loop of buildSettlementTx over all asset transfers. -/
def buildOutputs (ttx : InspectorTx) (dustLimit : Nat) :
    List AssetTransferField → OutState → Except GoErr OutState
  | [], st => .ok st
  | a :: rest, st =>
    match addSenderOutputs ttx dustLimit a.assetSenders st with
    | .error e => .error e
    | .ok st1 =>
      match addReceiverOutputs dustLimit
          (a.assetType = "BSV" ∧ a.assetCode.length = 0)
          a.assetReceivers st1 with
      | .error e => .error e
      | .ok st2 => buildOutputs ttx dustLimit rest st2

/-- buildSettlementTx from transfer.go: settlement inputs (one per
contract), settlement outputs for senders and receivers, then payment
outputs for the peer contract fees carried by the settlement request and
for this contract's own fee. -/
def buildSettlementTx (env : Env) (ttx : InspectorTx) (tf : TransferFields)
    (reqContractFees : List (Addr × Nat)) (contractBalance : Nat) :
    Except GoErr (List Nat × OutState) :=
  match buildInputs ttx tf.assets [] with
  | .error e => .error e
  | .ok settleInputs =>
    match buildOutputs ttx env.dustLimit tf.assets ⟨[], [], contractBalance⟩ with
    | .error e => .error e
    | .ok st =>
      let st1 := reqContractFees.foldl
        (fun s f => { s with outs := s.outs ++ [⟨f.1, f.2, false⟩] }) st
      let st2 := if 0 < env.contract.contractFee then
          { st1 with outs := st1.outs ++
            [⟨env.feeAddress, env.contract.contractFee, false⟩] }
        else st1
      .ok (settleInputs, st2)

/-- OutputAddress-based lookup of a settlement output paying an address;
payload outputs have no address (`OutputAddress` fails on them and the loop
continues). -/
def findOutputIdx (outs : List SettleOutput) (a : Addr) : Option Nat :=
  outs.findIdx? (fun o => !o.isPayload && (o.address == a))

/-- The bitcoin sender pass of addBitcoinSettlements: an out-of-range input
index or a quantity at or above the input's value is an error; quantities
accumulate into the send balance. -/
def bitcoinSenderLoop (ttx : InspectorTx) :
    List QuantityIndexField → Nat → Except GoErr Nat
  | [], sb => .ok sb
  | s :: rest, sb =>
    match ttx.inputs.get? s.index with
    | none => .error (.plain "Sender input index out of range")
    | some inp =>
      if inp.value ≤ s.quantity then
        .error (.plain "Sender bitcoin quantity higher than input amount")
      else bitcoinSenderLoop ttx rest (sb + s.quantity)

/-- The bitcoin receiver pass of addBitcoinSettlements: each receiver's
quantity is added to its existing settlement output (missing output is an
error), and a quantity at or above the remaining send balance is the error
"Sending more bitcoin than received". -/
def bitcoinReceiverLoop :
    List AssetReceiverField → List SettleOutput → Nat →
    Except GoErr (List SettleOutput × Nat)
  | [], outs, sb => .ok (outs, sb)
  | r :: rest, outs, sb =>
    match findOutputIdx outs r.address with
    | none => .error (.plain "Receiver bitcoin output missing output data")
    | some i =>
      if sb ≤ r.quantity then
        .error (.plain "Sending more bitcoin than received")
      else bitcoinReceiverLoop rest (addValueToOutput outs i r.quantity)
        (sb - r.quantity)

/-- The per-asset loop of addBitcoinSettlements (bitcoin assets only). -/
def bitcoinAssetsLoop (ttx : InspectorTx) :
    List AssetTransferField → List SettleOutput →
    Except GoErr (List SettleOutput)
  | [], outs => .ok outs
  | a :: rest, outs =>
    if a.assetType ≠ "BSV" ∨ a.assetCode.length ≠ 0 then
      bitcoinAssetsLoop ttx rest outs
    else
      match bitcoinSenderLoop ttx a.assetSenders 0 with
      | .error e => .error e
      | .ok sb =>
        match bitcoinReceiverLoop a.assetReceivers outs sb with
        | .error e => .error e
        | .ok (outs1, sb1) =>
          if sb1 ≠ 0 then .error (.plain "Not sending all recieved bitcoins")
          else bitcoinAssetsLoop ttx rest outs1

/-- addBitcoinSettlements from transfer.go: route each bitcoin asset's
quantities into the settlement outputs, then add the exchange fee. -/
def addBitcoinSettlements (ttx : InspectorTx) (tf : TransferFields)
    (outs : List SettleOutput) : Except GoErr (List SettleOutput) :=
  match bitcoinAssetsLoop ttx tf.assets outs with
  | .error e => .error e
  | .ok outs1 =>
    if tf.exchangeFeeAddress ≠ 0 ∧ 0 < tf.exchangeFee then
      match findOutputIdx outs1 tf.exchangeFeeAddress with
      | some i => .ok (addValueToOutput outs1 i tf.exchangeFee)
      | none => .ok (outs1 ++ [⟨tf.exchangeFeeAddress, tf.exchangeFee, false⟩])
    else .ok outs1

/-- transferIsSingleContract from transfer.go: true when every non-bitcoin
asset transfer names this contract via an in-range contract index. -/
def transferIsSingleContract (ttx : InspectorTx) (tf : TransferFields)
    (rk : Addr) : Bool :=
  tf.assets.all (fun a =>
    if a.assetType == "BSV" then true
    else if ttx.outputs.length ≤ a.contractIndex then false
    else (ttx.outputs.getD a.contractIndex ⟨0, 0⟩).address == rk)

/-! #### addSettlementData -/

/-- State of the per-asset sender/receiver processing in addSettlementData:
the settlement-output-slot array of holdings touched so far (`hds`), the
running send balance, and the administration counters. -/
structure AssetLoopState where
  hds : List (Option LedgerHolding)
  sendBalance : Nat
  fromAdministration : Nat
  fromNonAdministration : Nat
  toAdministration : Nat
  toNonAdministration : Nat
deriving DecidableEq, Repr

/-- The slot of the settlement output paying a party: the first settlement
output whose address is nonempty and equals the party's address. -/
def findSlot (soutAddrs : List Addr) (a : Addr) : Option Nat :=
  soutAddrs.findIdx? (fun x => !(x == 0) && (x == a))

/-- Administration counting of the sender loop: quantities sent by the
administration and by everyone else are tallied separately. -/
def senderAccum (adminAddress inpAddr : Addr) (q : Nat)
    (st : AssetLoopState) : AssetLoopState :=
  if inpAddr == adminAddress then
    { st with fromAdministration := st.fromAdministration + q }
  else
    { st with fromNonAdministration := st.fromNonAdministration + q }

/-- Administration counting of the receiver loop. -/
def receiverAccum (adminAddress rAddr : Addr) (q : Nat)
    (st : AssetLoopState) : AssetLoopState :=
  if rAddr == adminAddress then
    { st with toAdministration := st.toAdministration + q }
  else
    { st with toNonAdministration := st.toNonAdministration + q }

theorem senderAccum_hds (a i : Addr) (q : Nat) (st : AssetLoopState) :
    (senderAccum a i q st).hds = st.hds := by
  unfold senderAccum; split <;> rfl

theorem senderAccum_sendBalance (a i : Addr) (q : Nat)
    (st : AssetLoopState) :
    (senderAccum a i q st).sendBalance = st.sendBalance := by
  unfold senderAccum; split <;> rfl

theorem receiverAccum_hds (a r : Addr) (q : Nat) (st : AssetLoopState) :
    (receiverAccum a r q st).hds = st.hds := by
  unfold receiverAccum; split <;> rfl

theorem receiverAccum_sendBalance (a r : Addr) (q : Nat)
    (st : AssetLoopState) :
    (receiverAccum a r q st).sendBalance = st.sendBalance := by
  unfold receiverAccum; split <;> rfl

/-- The sender loop of addSettlementData: range-check the input index,
count administration quantities, find the sender's settlement output slot,
reject a duplicate slot with msg-malformed, then debit the holding —
mapping insufficient holdings, frozen and locked to their rejection codes
and any other failure to msg-malformed. -/
def processSenders (env : Env) (ttx : InspectorTx) (assetCode : List Nat)
    (soutAddrs : List Addr) (single : Bool) (now txid : Nat) :
    List QuantityIndexField → AssetLoopState → Except GoErr AssetLoopState
  | [], st => .ok st
  | sender :: rest, st =>
    match ttx.inputs.get? sender.index with
    | none => .error (.plain "Sender input index out of range")
    | some inp =>
      let st1 := senderAccum env.contract.administrationAddress inp.address
        sender.quantity st
      match findSlot soutAddrs inp.address with
      | none => .error (.plain "Sender output not found in settle tx")
      | some slot =>
        if (st1.hds.getD slot none).isSome then
          .error (.node RejectCode.msgMalformed "")
        else
          match AddDebit (env.getHolding assetCode inp.address) txid
              sender.quantity single now with
          | .error HoldingErr.insufficient =>
            .error (.node RejectCode.insufficientQuantity "")
          | .error HoldingErr.frozen =>
            .error (.node RejectCode.holdingsFrozen "")
          | .error HoldingErr.locked =>
            .error (.node RejectCode.holdingsLocked "")
          | .error _ => .error (.node RejectCode.msgMalformed "")
          | .ok h1 =>
            processSenders env ttx assetCode soutAddrs single now txid rest
              { st1 with hds := st1.hds.set slot (some h1),
                         sendBalance := st1.sendBalance + sender.quantity }

/-- The receiver loop of addSettlementData: find the receiver's settlement
output slot, count administration quantities, reject a duplicate slot with
msg-malformed, deposit the holding (a lock maps to holdings-locked, any
other failure to msg-malformed), then check the receiver quantity against
the remaining send balance — receiving more than is being sent is the plain
error "Receiving more tokens than sending". -/
def processReceivers (env : Env) (assetCode : List Nat)
    (soutAddrs : List Addr) (single : Bool) (now txid : Nat) :
    List AssetReceiverField → AssetLoopState → Except GoErr AssetLoopState
  | [], st => .ok st
  | r :: rest, st =>
    match findSlot soutAddrs r.address with
    | none => .error (.plain "Receiver output not found in settle tx")
    | some slot =>
      let st1 := receiverAccum env.contract.administrationAddress r.address
        r.quantity st
      if (st1.hds.getD slot none).isSome then
        .error (.node RejectCode.msgMalformed "")
      else
        match AddDeposit (env.getHolding assetCode r.address) txid
            r.quantity single now with
        | .error HoldingErr.locked =>
          .error (.node RejectCode.holdingsLocked "")
        | .error _ => .error (.node RejectCode.msgMalformed "")
        | .ok h1 =>
          if st1.sendBalance < r.quantity then
            .error (.plain "Receiving more tokens than sending")
          else
            processReceivers env assetCode soutAddrs single now txid rest
              { st1 with hds := st1.hds.set slot (some h1),
                         sendBalance := st1.sendBalance - r.quantity }

/-- Per-asset processing of addSettlementData.  Bitcoin transfers are
skipped (already handled); an out-of-range contract index is a plain error;
an asset addressed to another contract is skipped; the asset must exist and
be transferable; this contract must appear among the settlement inputs;
then senders and receivers are processed, the totals must balance
("Not sending all input tokens" otherwise), and when transfers are not
permitted all movement must involve the administration.  Returns whether
this contract added settlement data for the asset. -/
def processAsset (env : Env) (rk : Addr) (ttx : InspectorTx)
    (sinAddrs soutAddrs : List Addr) (single : Bool) (now txid : Nat)
    (a : AssetTransferField) : Except GoErr Bool :=
  if a.assetType == "BSV" && (a.assetCode.length == 0) then .ok false
  else if ttx.outputs.length ≤ a.contractIndex then
    .error (.plain "Contract index out of range")
  else
    let caddr := (ttx.outputs.getD a.contractIndex ⟨0, 0⟩).address
    if caddr == 0 || !(caddr == rk) then .ok false
    else
      match env.assetLookup a.assetCode with
      | none => .error (.plain "Asset ID not found")
      | some as =>
        if !as.transferable then
          .error (.node RejectCode.assetNotTransferable "")
        else
          match findSlot sinAddrs rk with
          | none => .error (.plain "Contract input not found")
          | some _ =>
            match processSenders env ttx a.assetCode soutAddrs single now
                txid a.assetSenders
                ⟨List.replicate soutAddrs.length none, 0, 0, 0, 0, 0⟩ with
            | .error e => .error e
            | .ok st1 =>
              match processReceivers env a.assetCode soutAddrs single now
                  txid a.assetReceivers st1 with
              | .error e => .error e
              | .ok st2 =>
                if st2.sendBalance ≠ 0 then
                  .error (.plain "Not sending all input tokens")
                else if !as.transfersPermitted &&
                    decide (st2.toAdministration < st2.fromNonAdministration) then
                  .error (.node RejectCode.assetNotPermitted "")
                else if !as.transfersPermitted &&
                    decide (st2.fromAdministration < st2.toNonAdministration) then
                  .error (.node RejectCode.assetNotPermitted "")
                else .ok true

/-- The asset loop of addSettlementData, accumulating whether any
settlement data was added. -/
def assetsLoop (env : Env) (rk : Addr) (ttx : InspectorTx)
    (sinAddrs soutAddrs : List Addr) (single : Bool) (now txid : Nat) :
    List AssetTransferField → Bool → Except GoErr Bool
  | [], dataAdded => .ok dataAdded
  | a :: rest, dataAdded =>
    match processAsset env rk ttx sinAddrs soutAddrs single now txid a with
    | .error e => .error e
    | .ok added =>
      assetsLoop env rk ttx sinAddrs soutAddrs single now txid rest
        (dataAdded || added)

/-- The addresses of the settlement inputs: each input spends a transfer tx
output, whose locking script yields the address (an unreadable script
yields the empty address). -/
def settleInputAddresses (ttx : InspectorTx) (settleInputs : List Nat) :
    List Addr :=
  settleInputs.map (fun i => (ttx.outputs.getD i ⟨0, 0⟩).address)

/-- The addresses of the settlement outputs; the Settlement OP_RETURN
payload has no address. -/
def settleOutputAddresses (settleOuts : List SettleOutput) : List Addr :=
  settleOuts.map (fun o => if o.isPayload then 0 else o.address)

/-- addSettlementData from transfer.go.  A frozen contract is the node
error contract-frozen; each asset is processed in order; no data added is a
plain error; finally the Settlement OP_RETURN output must be present to
receive the payload.  The settlement payload itself and the holdings update
set carry no information the claims below need, so success is a unit. -/
def addSettlementData (env : Env) (rk : Addr) (ttx : InspectorTx)
    (tf : TransferFields) (settleInputs : List Nat)
    (settleOuts : List SettleOutput) (single : Bool) (now txid : Nat) :
    Except GoErr Unit :=
  if now < env.contract.freezePeriod then
    .error (.node RejectCode.contractFrozen "")
  else
    match assetsLoop env rk ttx (settleInputAddresses ttx settleInputs)
        (settleOutputAddresses settleOuts) single now txid tf.assets false with
    | .error e => .error e
    | .ok dataAdded =>
      if !dataAdded then .error (.plain "No data added to settlement")
      else if settleOuts.any (fun o => o.isPayload) then .ok ()
      else .error (.plain "Settlement op return not found in settle tx")

/-- Outcome of the TransferRequest handler: wait for a settlement request
(not the first contract), issue a rejection with a code, fail with an
internal error (the dispatcher retries the tx), settle a single-contract
transfer, or proceed to the multi-contract relay. -/
inductive Outcome
  | wait
  | reject (code : RejectCode)
  | internalError (msg : String)
  | settledSingle
  | multiContract
deriving DecidableEq, Repr

/-- TransferRequest from transfer.go, up to the point where the claims
below are decided.  The checks run in source order: first-contract
selection (no first contract is an internal error), first-contract address
(otherwise wait for a settlement request), pre-processing reject code,
offer expiry, nonempty assets, contract moved / frozen / expired, then
buildSettlementTx and addBitcoinSettlements — any failure of either rejects
with msg-malformed — then the Settlement OP_RETURN placeholder is appended
and addSettlementData runs: an error carrying a node rejection code rejects
with that code, any other error is internal.  On success a single-contract
transfer is signed and broadcast (`settledSingle`; the signing step's own
funding failure is beyond these claims), a multi-contract transfer proceeds
to the relay (`multiContract`). -/
def transferRequestOutcome (env : Env) (ttx : InspectorTx)
    (tf : TransferFields) (rk : Addr) (now : Nat) : Outcome :=
  let first := firstContractOutputIndex tf.assets ttx
  if first = 0xffff then .internalError "Transfer first contract not found"
  else if !((ttx.outputs.getD first ⟨0, 0⟩).address == rk) then .wait
  else if ttx.rejectCode ≠ 0 then .reject (.preprocess ttx.rejectCode)
  else if tf.offerExpiry ≠ 0 ∧ tf.offerExpiry < now then
    .reject .transferExpired
  else if tf.assets.length = 0 then .reject .msgMalformed
  else if !env.contract.movedToEmpty then .reject .contractMoved
  else if now < env.contract.freezePeriod then .reject .contractFrozen
  else if env.contract.contractExpiration ≠ 0 ∧
      env.contract.contractExpiration < now then .reject .contractExpired
  else
    match buildSettlementTx env ttx tf []
        (ttx.outputs.getD first ⟨0, 0⟩).value with
    | .error _ => .reject .msgMalformed
    | .ok (settleInputs, st) =>
      match addBitcoinSettlements ttx tf st.outs with
      | .error _ => .reject .msgMalformed
      | .ok outs1 =>
        let outs2 := outs1 ++ [⟨0, 0, true⟩]
        let single := transferIsSingleContract ttx tf rk
        match addSettlementData env rk ttx tf settleInputs outs2 single now
            ttx.txId with
        | .error (.node code _) => .reject code
        | .error (.plain _) => .internalError "Failed to add settlement data"
        | .ok _ => if single then .settledSingle else .multiContract

/-! #### Claim C5: first-contract selection -/

/-- A first-contract selection rule written from the amended spec words:
skip asset transfers whose asset type denotes bitcoin OR whose asset code
is empty OR whose contract output index is out of range of the transfer
tx's outputs; return the contract index of the first remaining entry, and
the sentinel 0xffff when no entry remains. -/
def firstContractOutputIndexAmended (assets : List AssetTransferField)
    (ttx : InspectorTx) : Nat :=
  match assets.find? (fun a => decide (a.assetType ≠ "BSV" ∧
      a.assetCode.length ≠ 0 ∧ a.contractIndex < ttx.outputs.length)) with
  | some a => a.contractIndex
  | none => 0xffff

theorem firstContract_amended_eq (assets : List AssetTransferField)
    (ttx : InspectorTx) :
    firstContractOutputIndex assets ttx =
      firstContractOutputIndexAmended assets ttx := by
  induction assets with
  | nil => rfl
  | cons a rest ih =>
    by_cases h : a.assetType ≠ "BSV" ∧ a.assetCode.length ≠ 0 ∧
        a.contractIndex < ttx.outputs.length
    · rw [firstContractOutputIndex, if_pos h]
      unfold firstContractOutputIndexAmended
      rw [List.find?_cons_of_pos _ (by simpa using h)]
    · rw [firstContractOutputIndex, if_neg h]
      unfold firstContractOutputIndexAmended at ih ⊢
      rw [List.find?_cons_of_neg _ (by simpa using h)]
      exact ih

/-- C5 (amended): first-contract selection skips asset transfers whose
asset type denotes bitcoin or whose asset code is empty or whose contract
index is out of range, returning the contract output index of the first
remaining entry and the sentinel 0xffff if none remains; and a transfer
with no remaining entry (a bitcoin-only transfer in particular) is not
settled by the handler — it returns the internal error "Transfer first
contract not found". -/
theorem claim_C5 (assets : List AssetTransferField) (ttx : InspectorTx) :
    firstContractOutputIndex assets ttx =
      firstContractOutputIndexAmended assets ttx ∧
    (∀ (env : Env) (tf : TransferFields) (rk : Addr) (now : Nat),
      firstContractOutputIndex tf.assets ttx = 0xffff →
      transferRequestOutcome env ttx tf rk now =
        .internalError "Transfer first contract not found") := by
  refine ⟨firstContract_amended_eq assets ttx, ?_⟩
  intro env tf rk now h
  unfold transferRequestOutcome
  rw [h]
  simp

/-- Concrete environment used by witnesses: an unfrozen, unexpired, unmoved
contract with administration address 99 and no contract fee; every asset
exists, is transferable and has transfers permitted; every holding starts
with balance 100 and no statuses. -/
def envW : Env where
  contract := ⟨true, 0, 0, 0, 99⟩
  assetLookup := fun _ => some ⟨true, true⟩
  getHolding := fun _ _ => ⟨100, 100, []⟩
  feeAddress := 98
  dustLimit := 5

/-- Transfer tx used by the concrete results: input 0 from address 11 worth
600 satoshis, output 0 to the contract (address 5) worth 1000, output 1 to
address 12 worth 200. -/
def ttxW : InspectorTx := ⟨77, [⟨11, 600⟩], [⟨5, 1000⟩, ⟨12, 200⟩], 0⟩

/-- A bitcoin-only transfer: one BSV entry with an empty asset code. -/
def tfBitcoinOnly : TransferFields :=
  ⟨[⟨"BSV", [], 0, [⟨0, 10⟩], [⟨12, 10⟩]⟩], 0, 0, 0⟩

/-- C5, counterexample: the claim says selection skips exactly the
bitcoin-with-empty-code entries and returns the contract output index of
the first remaining entry.  A non-bitcoin entry with an empty asset code
(respectively a bitcoin entry with a nonempty code) remains per the claim,
so 1 should be returned; the code returns the sentinel 0xffff.  And for a
bitcoin-only transfer the claim says the transfer is settled by this
contract alone; the code instead fails with an internal error. -/
theorem claim_C5_counterexample :
    firstContractOutputIndex [⟨"SHC", [], 1, [], []⟩] ttxW = 0xffff ∧
    firstContractOutputIndex [⟨"BSV", [7], 1, [], []⟩] ttxW = 0xffff ∧
    (0xffff : Nat) ≠ 1 ∧
    transferRequestOutcome envW ttxW tfBitcoinOnly 5 50 =
      .internalError "Transfer first contract not found" ∧
    Outcome.internalError "Transfer first contract not found" ≠
      Outcome.settledSingle :=
  ⟨rfl, rfl, by decide, rfl, by decide⟩

theorem claim_C5_witness :
    (firstContractOutputIndex tfBitcoinOnly.assets ttxW =
      firstContractOutputIndexAmended tfBitcoinOnly.assets ttxW) ∧
    transferRequestOutcome envW ttxW tfBitcoinOnly 5 50 =
      .internalError "Transfer first contract not found" :=
  ⟨(claim_C5 tfBitcoinOnly.assets ttxW).1,
    (claim_C5 tfBitcoinOnly.assets ttxW).2 envW tfBitcoinOnly 5 50 rfl⟩

/-! #### Claim C1: bitcoin funding check of buildSettlementTx -/

/-- The sum of bitcoin quantities over all bitcoin-asset receivers of a
transfer. -/
def bitcoinReceiverTotal (assets : List AssetTransferField) : Nat :=
  (assets.map (fun a =>
    if a.assetType = "BSV" ∧ a.assetCode.length = 0 then
      (a.assetReceivers.map (fun r => r.quantity)).sum
    else 0)).sum

theorem addSenderOutputs_balance (ttx : InspectorTx) (dustLimit : Nat)
    (senders : List QuantityIndexField) :
    ∀ st st', addSenderOutputs ttx dustLimit senders st = .ok st' →
      st'.contractBalance = st.contractBalance := by
  induction senders with
  | nil => intro st st' h; cases h; rfl
  | cons s rest ih =>
    intro st st' h
    rw [addSenderOutputs] at h
    cases hg : ttx.inputs.get? s.index with
    | none => rw [hg] at h; cases h
    | some inp =>
      rw [hg] at h
      simp only at h
      split at h
      · exact ih _ _ h
      · simpa using ih _ _ h

theorem addReceiverOutputs_true_balance (dustLimit : Nat)
    (receivers : List AssetReceiverField) :
    ∀ st st', addReceiverOutputs dustLimit true receivers st = .ok st' →
      (receivers.map (fun r => r.quantity)).sum ≤ st.contractBalance ∧
      st'.contractBalance =
        st.contractBalance - (receivers.map (fun r => r.quantity)).sum := by
  induction receivers with
  | nil => intro st st' h; cases h; simp
  | cons r rest ih =>
    intro st st' h
    rw [addReceiverOutputs] at h
    simp only [eq_self_iff_true, true_and, if_true] at h
    by_cases hlt : st.contractBalance < r.quantity
    · rw [if_pos hlt] at h
      cases h
    · rw [if_neg hlt] at h
      simp only [List.map_cons, List.sum_cons]
      split at h
      · have := ih _ _ h
        simp only at this
        refine ⟨by omega, by omega⟩
      · have := ih _ _ h
        simp only at this
        refine ⟨by omega, by omega⟩

theorem addReceiverOutputs_false_balance (dustLimit : Nat)
    (receivers : List AssetReceiverField) :
    ∀ st st', addReceiverOutputs dustLimit false receivers st = .ok st' →
      st'.contractBalance = st.contractBalance := by
  induction receivers with
  | nil => intro st st' h; cases h; rfl
  | cons r rest ih =>
    intro st st' h
    rw [addReceiverOutputs] at h
    simp only [Bool.false_eq_true, false_and, if_false] at h
    split at h
    · simpa using ih _ _ h
    · simpa using ih _ _ h

theorem buildOutputs_ok_balance (ttx : InspectorTx) (dustLimit : Nat)
    (assets : List AssetTransferField) :
    ∀ st st', buildOutputs ttx dustLimit assets st = .ok st' →
      bitcoinReceiverTotal assets ≤ st.contractBalance := by
  induction assets with
  | nil => intro st st' _; simp [bitcoinReceiverTotal]
  | cons a rest ih =>
    intro st st' h
    rw [buildOutputs] at h
    cases hs : addSenderOutputs ttx dustLimit a.assetSenders st with
    | error e => rw [hs] at h; cases h
    | ok st1 =>
      rw [hs] at h
      simp only at h
      have hbal1 := addSenderOutputs_balance ttx dustLimit a.assetSenders
        st st1 hs
      by_cases hbtc : a.assetType = "BSV" ∧ a.assetCode.length = 0
      · cases hr : addReceiverOutputs dustLimit true a.assetReceivers st1 with
        | error e =>
          rw [decide_eq_true hbtc, hr] at h
          cases h
        | ok st2 =>
          rw [decide_eq_true hbtc, hr] at h
          simp only at h
          obtain ⟨hle, heq⟩ := addReceiverOutputs_true_balance dustLimit
            a.assetReceivers st1 st2 hr
          have hrest := ih st2 st' h
          unfold bitcoinReceiverTotal at hrest ⊢
          simp only [List.map_cons, List.sum_cons, if_pos hbtc]
          omega
      · cases hr : addReceiverOutputs dustLimit false a.assetReceivers st1 with
        | error e =>
          rw [decide_eq_false hbtc, hr] at h
          cases h
        | ok st2 =>
          rw [decide_eq_false hbtc, hr] at h
          simp only at h
          have heq := addReceiverOutputs_false_balance dustLimit
            a.assetReceivers st1 st2 hr
          have hrest := ih st2 st' h
          unfold bitcoinReceiverTotal at hrest ⊢
          simp only [List.map_cons, List.sum_cons, if_neg hbtc]
          omega

theorem buildSettlementTx_shortfall (env : Env) (ttx : InspectorTx)
    (tf : TransferFields) (reqFees : List (Addr × Nat))
    (contractBalance : Nat)
    (hsum : contractBalance < bitcoinReceiverTotal tf.assets) :
    ∃ e, buildSettlementTx env ttx tf reqFees contractBalance = .error e := by
  unfold buildSettlementTx
  cases hbi : buildInputs ttx tf.assets [] with
  | error e => exact ⟨e, rfl⟩
  | ok si =>
    cases hbo : buildOutputs ttx env.dustLimit tf.assets
        ⟨[], [], contractBalance⟩ with
    | error e => exact ⟨e, rfl⟩
    | ok st =>
      have := buildOutputs_ok_balance ttx env.dustLimit tf.assets
        ⟨[], [], contractBalance⟩ st hbo
      simp only at this
      omega

/-- C1 (amended): when the sum of bitcoin quantities over all bitcoin-asset
receivers exceeds the value of the first contract's contract output,
buildSettlementTx fails and the handler rejects the transfer with
msg-malformed — not with an insufficient-funding code.  The other
hypotheses state that the handler reaches the buildSettlementTx call: a
first contract exists and is this contract, no pre-processing reject code,
the offer has not expired, there is at least one asset transfer, and the
contract is not moved, frozen or expired. -/
theorem claim_C1 (env : Env) (ttx : InspectorTx) (tf : TransferFields)
    (rk : Addr) (now : Nat)
    (hfirst : firstContractOutputIndex tf.assets ttx ≠ 0xffff)
    (hours : (ttx.outputs.getD (firstContractOutputIndex tf.assets ttx)
      ⟨0, 0⟩).address = rk)
    (hrc : ttx.rejectCode = 0)
    (hoe : ¬(tf.offerExpiry ≠ 0 ∧ tf.offerExpiry < now))
    (hne : tf.assets.length ≠ 0)
    (hmoved : env.contract.movedToEmpty = true)
    (hfreeze : env.contract.freezePeriod ≤ now)
    (hcexp : ¬(env.contract.contractExpiration ≠ 0 ∧
      env.contract.contractExpiration < now))
    (hsum : (ttx.outputs.getD (firstContractOutputIndex tf.assets ttx)
      ⟨0, 0⟩).value < bitcoinReceiverTotal tf.assets) :
    transferRequestOutcome env ttx tf rk now = .reject .msgMalformed := by
  obtain ⟨e, he⟩ := buildSettlementTx_shortfall env ttx tf []
    (ttx.outputs.getD (firstContractOutputIndex tf.assets ttx)
      ⟨0, 0⟩).value hsum
  simp only [transferRequestOutcome]
  rw [if_neg hfirst, if_neg (by rw [hours]; simp),
    if_neg (by simpa using hrc), if_neg hoe, if_neg hne,
    if_neg (by simp [hmoved]), if_neg (by omega), if_neg hcexp, he]

/-- Transfer used by the C1 results: one token asset from address 11 to
address 12, and a bitcoin entry routing 2000 satoshis to address 12 through
the first contract's output, which is worth only 1000. -/
def tfC1 : TransferFields :=
  ⟨[⟨"SHC", [1], 0, [⟨0, 5⟩], [⟨12, 5⟩]⟩,
    ⟨"BSV", [], 0, [⟨0, 10⟩], [⟨12, 2000⟩]⟩], 0, 0, 0⟩

/-- C1, counterexample: at a transfer whose bitcoin receivers require 2000
satoshis from a 1000-satoshi contract output, the handler rejects with
msg-malformed, not with an insufficient-funding code. -/
theorem claim_C1_counterexample :
    transferRequestOutcome envW ttxW tfC1 5 50 = .reject .msgMalformed ∧
    RejectCode.msgMalformed ≠ RejectCode.insufficientTxFeeFunding ∧
    RejectCode.msgMalformed ≠ RejectCode.insufficientQuantity :=
  ⟨rfl, by decide, by decide⟩

theorem claim_C1_witness :
    (firstContractOutputIndex tfC1.assets ttxW ≠ 0xffff) ∧
    ((ttxW.outputs.getD (firstContractOutputIndex tfC1.assets ttxW)
      ⟨0, 0⟩).address = 5) ∧
    ttxW.rejectCode = 0 ∧
    ¬(tfC1.offerExpiry ≠ 0 ∧ tfC1.offerExpiry < 50) ∧
    tfC1.assets.length ≠ 0 ∧
    envW.contract.movedToEmpty = true ∧
    envW.contract.freezePeriod ≤ 50 ∧
    ¬(envW.contract.contractExpiration ≠ 0 ∧
      envW.contract.contractExpiration < 50) ∧
    ((ttxW.outputs.getD (firstContractOutputIndex tfC1.assets ttxW)
      ⟨0, 0⟩).value < bitcoinReceiverTotal tfC1.assets) ∧
    transferRequestOutcome envW ttxW tfC1 5 50 = .reject .msgMalformed :=
  ⟨by decide, rfl, rfl, by decide, by decide, rfl, by decide, by decide,
    by decide,
    claim_C1 envW ttxW tfC1 5 50 (by decide) rfl rfl (by decide) (by decide)
      rfl (by decide) (by decide) (by decide)⟩

/-! #### Claim C2: per-asset balance conservation in addSettlementData -/

theorem processSenders_balance (env : Env) (ttx : InspectorTx)
    (assetCode : List Nat) (soutAddrs : List Addr) (single : Bool)
    (now txid : Nat) (senders : List QuantityIndexField) :
    ∀ st st', processSenders env ttx assetCode soutAddrs single now txid
        senders st = .ok st' →
      st'.sendBalance =
        st.sendBalance + (senders.map (fun s => s.quantity)).sum := by
  induction senders with
  | nil => intro st st' h; cases h; simp
  | cons s rest ih =>
    intro st st' h
    rw [processSenders] at h
    cases hg : ttx.inputs.get? s.index with
    | none => rw [hg] at h; cases h
    | some inp =>
      rw [hg] at h
      simp only at h
      cases hf : findSlot soutAddrs inp.address with
      | none => rw [hf] at h; cases h
      | some slot =>
        rw [hf] at h
        simp only at h
        split at h
        · cases h
        · split at h
          · cases h
          · cases h
          · cases h
          · cases h
          · have := ih _ _ h
            simp only [senderAccum_sendBalance] at this
            simp only [List.map_cons, List.sum_cons]
            omega

theorem processReceivers_balance (env : Env) (assetCode : List Nat)
    (soutAddrs : List Addr) (single : Bool) (now txid : Nat)
    (receivers : List AssetReceiverField) :
    ∀ st st', processReceivers env assetCode soutAddrs single now txid
        receivers st = .ok st' →
      (receivers.map (fun r => r.quantity)).sum ≤ st.sendBalance ∧
      st'.sendBalance =
        st.sendBalance - (receivers.map (fun r => r.quantity)).sum := by
  induction receivers with
  | nil => intro st st' h; cases h; simp
  | cons r rest ih =>
    intro st st' h
    rw [processReceivers] at h
    cases hf : findSlot soutAddrs r.address with
    | none => rw [hf] at h; cases h
    | some slot =>
      rw [hf] at h
      simp only at h
      split at h
      · cases h
      · split at h
        · cases h
        · cases h
        · split at h
          · cases h
          · rename_i hnlt
            have := ih _ _ h
            simp only [receiverAccum_sendBalance] at this hnlt
            simp only [List.map_cons, List.sum_cons]
            omega

theorem assetsLoop_ok_forall (env : Env) (rk : Addr) (ttx : InspectorTx)
    (sinAddrs soutAddrs : List Addr) (single : Bool) (now txid : Nat)
    (assets : List AssetTransferField) :
    ∀ d d', assetsLoop env rk ttx sinAddrs soutAddrs single now txid
        assets d = .ok d' →
      ∀ a ∈ assets, ∃ b,
        processAsset env rk ttx sinAddrs soutAddrs single now txid a =
          .ok b := by
  induction assets with
  | nil => intro d d' _ a ha; simp at ha
  | cons a0 rest ih =>
    intro d d' h a ha
    rw [assetsLoop] at h
    cases hp : processAsset env rk ttx sinAddrs soutAddrs single now txid
        a0 with
    | error e => rw [hp] at h; cases h
    | ok b =>
      rw [hp] at h
      simp only at h
      rcases List.mem_cons.mp ha with heq | hmem
      · subst heq; exact ⟨b, hp⟩
      · exact ih _ _ h a hmem

theorem processAsset_balanced (env : Env) (rk : Addr) (ttx : InspectorTx)
    (sinAddrs soutAddrs : List Addr) (single : Bool) (now txid : Nat)
    (a : AssetTransferField)
    (hnb : ¬(a.assetType = "BSV" ∧ a.assetCode.length = 0))
    (hrange : a.contractIndex < ttx.outputs.length)
    (hours : (ttx.outputs.getD a.contractIndex ⟨0, 0⟩).address = rk)
    (hrk : rk ≠ 0) (b : Bool)
    (h : processAsset env rk ttx sinAddrs soutAddrs single now txid a =
      .ok b) :
    (a.assetSenders.map (fun s => s.quantity)).sum =
      (a.assetReceivers.map (fun r => r.quantity)).sum := by
  rw [processAsset] at h
  rw [if_neg (by
    intro hc
    simp only [Bool.and_eq_true, beq_iff_eq] at hc
    exact hnb ⟨hc.1, by simpa using hc.2⟩)] at h
  rw [if_neg (by omega)] at h
  simp only at h
  rw [if_neg (by rw [hours]; simp [hrk])] at h
  cases hl : env.assetLookup a.assetCode with
  | none => rw [hl] at h; cases h
  | some as =>
    rw [hl] at h
    simp only at h
    split at h
    · cases h
    · cases hci : findSlot sinAddrs rk with
      | none => rw [hci] at h; cases h
      | some cidx =>
        rw [hci] at h
        simp only at h
        cases hps : processSenders env ttx a.assetCode soutAddrs single now
            txid a.assetSenders
            ⟨List.replicate soutAddrs.length none, 0, 0, 0, 0, 0⟩ with
        | error e => rw [hps] at h; cases h
        | ok st1 =>
          rw [hps] at h
          simp only at h
          cases hpr : processReceivers env a.assetCode soutAddrs single now
              txid a.assetReceivers st1 with
          | error e => rw [hpr] at h; cases h
          | ok st2 =>
            rw [hpr] at h
            simp only at h
            have hsb1 := processSenders_balance env ttx a.assetCode soutAddrs
              single now txid a.assetSenders _ _ hps
            obtain ⟨hle, hsb2⟩ := processReceivers_balance env a.assetCode
              soutAddrs single now txid a.assetReceivers _ _ hpr
            simp only at hsb1
            split at h
            · cases h
            · rename_i hz
              simp only [Decidable.not_not] at hz
              omega

/-- C2 (amended): whenever addSettlementData succeeds, every asset entry of
this contract (non-bitcoin, in-range contract index addressed to this
contract) has equal sender and receiver quantity totals.  When they differ
the call fails — the quantity-comparison failures are plain errors, which
the handler surfaces as an internal error (the dispatcher retries), not as
a user-visible msg-malformed rejection (see the counterexample). -/
theorem claim_C2 (env : Env) (rk : Addr) (ttx : InspectorTx)
    (tf : TransferFields) (settleInputs : List Nat)
    (settleOuts : List SettleOutput) (single : Bool) (now txid : Nat)
    (hrk : rk ≠ 0)
    (hok : addSettlementData env rk ttx tf settleInputs settleOuts single
      now txid = .ok ()) :
    ∀ a ∈ tf.assets, ¬(a.assetType = "BSV" ∧ a.assetCode.length = 0) →
      a.contractIndex < ttx.outputs.length →
      (ttx.outputs.getD a.contractIndex ⟨0, 0⟩).address = rk →
      (a.assetSenders.map (fun s => s.quantity)).sum =
        (a.assetReceivers.map (fun r => r.quantity)).sum := by
  intro a ha hnb hrange hours
  rw [addSettlementData] at hok
  split at hok
  · cases hok
  · cases hal : assetsLoop env rk ttx (settleInputAddresses ttx settleInputs)
        (settleOutputAddresses settleOuts) single now txid tf.assets
        false with
    | error e => rw [hal] at hok; cases hok
    | ok dataAdded =>
      obtain ⟨b, hb⟩ := assetsLoop_ok_forall env rk ttx
        (settleInputAddresses ttx settleInputs)
        (settleOutputAddresses settleOuts) single now txid tf.assets
        _ _ hal a ha
      exact processAsset_balanced env rk ttx _ _ single now txid a hnb
        hrange hours hrk b hb

/-- Transfer used by the C2 counterexample: a single token asset sending 5
units from address 11 but delivering 7 to address 12. -/
def tfC2 : TransferFields := ⟨[⟨"SHC", [1], 0, [⟨0, 5⟩], [⟨12, 7⟩]⟩], 0, 0, 0⟩

/-- C2, counterexample: an unbalanced asset entry (senders total 5,
receivers total 7) makes the handler fail with an internal error — the
dispatcher will retry the transfer — instead of issuing the user-visible
msg-malformed rejection the claim asserts. -/
theorem claim_C2_counterexample :
    transferRequestOutcome envW ttxW tfC2 5 50 =
      .internalError "Failed to add settlement data" ∧
    Outcome.internalError "Failed to add settlement data" ≠
      Outcome.reject .msgMalformed :=
  ⟨rfl, by decide⟩

/-- Transfer used by the C2 witness: the balanced version of `tfC2`. -/
def tfC2ok : TransferFields :=
  ⟨[⟨"SHC", [1], 0, [⟨0, 5⟩], [⟨12, 5⟩]⟩], 0, 0, 0⟩

/-- Settlement outputs used by the C2 and C6 witnesses: dust outputs for
addresses 11 and 12 plus the Settlement OP_RETURN placeholder. -/
def soutsW : List SettleOutput := [⟨11, 5, false⟩, ⟨12, 5, false⟩, ⟨0, 0, true⟩]

theorem claim_C2_witness :
    (5 : Addr) ≠ 0 ∧
    addSettlementData envW 5 ttxW tfC2ok [0] soutsW true 50 77 = .ok () ∧
    (∀ a ∈ tfC2ok.assets, ¬(a.assetType = "BSV" ∧ a.assetCode.length = 0) →
      a.contractIndex < ttxW.outputs.length →
      (ttxW.outputs.getD a.contractIndex ⟨0, 0⟩).address = 5 →
      (a.assetSenders.map (fun s => s.quantity)).sum =
        (a.assetReceivers.map (fun r => r.quantity)).sum) :=
  ⟨by decide, rfl,
    claim_C2 envW 5 ttxW tfC2ok [0] soutsW true 50 77 (by decide) rfl⟩

/-! #### Claim C6: duplicate party detection in addSettlementData -/

theorem getD_set_mono (l : List (Option LedgerHolding)) (n : Nat)
    (x : LedgerHolding) (m : Nat)
    (h : (l.getD m none).isSome = true) :
    ((l.set n (some x)).getD m none).isSome = true := by
  by_cases hmn : n = m
  · subst hmn
    by_cases hlt : n < l.length
    · simp [List.getD_eq_getElem?_getD, List.getElem?_set_self, hlt]
    · rw [List.set_eq_of_length_le (by omega)]
      exact h
  · rw [List.getD_eq_getElem?_getD, List.getElem?_set_ne hmn,
      ← List.getD_eq_getElem?_getD]
    exact h

theorem getD_set_self_isSome (l : List (Option LedgerHolding)) (n : Nat)
    (x : LedgerHolding) (h : n < l.length) :
    ((l.set n (some x)).getD n none).isSome = true := by
  simp [List.getD_eq_getElem?_getD, List.getElem?_set_self, h]

theorem processSenders_hds_invariant (env : Env) (ttx : InspectorTx)
    (ac : List Nat) (souts : List Addr) (single : Bool) (now txid : Nat)
    (senders : List QuantityIndexField) :
    ∀ st st', processSenders env ttx ac souts single now txid senders st =
        .ok st' →
      st'.hds.length = st.hds.length ∧
      (∀ m, (st.hds.getD m none).isSome = true →
        (st'.hds.getD m none).isSome = true) ∧
      (∀ s ∈ senders, ∀ inp, ttx.inputs.get? s.index = some inp →
        ∀ slot, findSlot souts inp.address = some slot →
        slot < st.hds.length →
        (st'.hds.getD slot none).isSome = true) := by
  induction senders with
  | nil =>
    intro st st' h
    cases h
    exact ⟨rfl, fun m hm => hm, fun s hs => by simp at hs⟩
  | cons s0 rest ih =>
    intro st st' h
    rw [processSenders] at h
    cases hg : ttx.inputs.get? s0.index with
    | none => rw [hg] at h; cases h
    | some inp0 =>
      rw [hg] at h
      simp only at h
      cases hf : findSlot souts inp0.address with
      | none => rw [hf] at h; cases h
      | some slot0 =>
        rw [hf] at h
        simp only at h
        split at h
        · cases h
        · split at h
          · cases h
          · cases h
          · cases h
          · cases h
          · obtain ⟨hlen, hmono, hmem⟩ := ih _ _ h
            simp only [senderAccum_hds, List.length_set] at hlen hmono hmem
            refine ⟨hlen, ?_, ?_⟩
            · intro m hm
              exact hmono m (getD_set_mono _ _ _ _ hm)
            · intro s hs inp hinp slot hslot hlt
              rcases List.mem_cons.mp hs with heq | hmem'
              · subst heq
                rw [hinp] at hg
                injection hg with hg2
                subst hg2
                rw [hslot] at hf
                injection hf with hf2
                subst hf2
                exact hmono _ (getD_set_self_isSome _ _ _ hlt)
              · exact hmem s hmem' inp hinp slot hslot hlt

theorem processReceivers_hds_invariant (env : Env) (ac : List Nat)
    (souts : List Addr) (single : Bool) (now txid : Nat)
    (receivers : List AssetReceiverField) :
    ∀ st st', processReceivers env ac souts single now txid receivers st =
        .ok st' →
      st'.hds.length = st.hds.length ∧
      (∀ m, (st.hds.getD m none).isSome = true →
        (st'.hds.getD m none).isSome = true) ∧
      (∀ r ∈ receivers, ∀ slot, findSlot souts r.address = some slot →
        slot < st.hds.length →
        (st'.hds.getD slot none).isSome = true) := by
  induction receivers with
  | nil =>
    intro st st' h
    cases h
    exact ⟨rfl, fun m hm => hm, fun r hr => by simp at hr⟩
  | cons r0 rest ih =>
    intro st st' h
    rw [processReceivers] at h
    cases hf : findSlot souts r0.address with
    | none => rw [hf] at h; cases h
    | some slot0 =>
      rw [hf] at h
      simp only at h
      split at h
      · cases h
      · split at h
        · cases h
        · cases h
        · split at h
          · cases h
          · obtain ⟨hlen, hmono, hmem⟩ := ih _ _ h
            simp only [receiverAccum_hds, List.length_set] at hlen hmono hmem
            refine ⟨hlen, ?_, ?_⟩
            · intro m hm
              exact hmono m (getD_set_mono _ _ _ _ hm)
            · intro r hr slot hslot hlt
              rcases List.mem_cons.mp hr with heq | hmem'
              · subst heq
                rw [hslot] at hf
                injection hf with hf2
                subst hf2
                exact hmono _ (getD_set_self_isSome _ _ _ hlt)
              · exact hmem r hmem' slot hslot hlt

theorem processSenders_append (env : Env) (ttx : InspectorTx) (ac : List Nat)
    (souts : List Addr) (single : Bool) (now txid : Nat)
    (l1 l2 : List QuantityIndexField) :
    ∀ st, processSenders env ttx ac souts single now txid (l1 ++ l2) st =
      (match processSenders env ttx ac souts single now txid l1 st with
       | .error e => .error e
       | .ok st1 => processSenders env ttx ac souts single now txid l2 st1) := by
  induction l1 with
  | nil => intro st; simp [processSenders]
  | cons s l ih =>
    intro st
    rw [List.cons_append, processSenders, processSenders]
    cases hg : ttx.inputs.get? s.index with
    | none => rfl
    | some inp =>
      simp only
      cases hf : findSlot souts inp.address with
      | none => rfl
      | some slot =>
        simp only
        split
        · rfl
        · cases hd : AddDebit (env.getHolding ac inp.address) txid s.quantity
              single now with
          | error e => cases e <;> rfl
          | ok h1 => exact ih _

theorem processReceivers_append (env : Env) (ac : List Nat)
    (souts : List Addr) (single : Bool) (now txid : Nat)
    (l1 l2 : List AssetReceiverField) :
    ∀ st, processReceivers env ac souts single now txid (l1 ++ l2) st =
      (match processReceivers env ac souts single now txid l1 st with
       | .error e => .error e
       | .ok st1 => processReceivers env ac souts single now txid l2 st1) := by
  induction l1 with
  | nil => intro st; simp [processReceivers]
  | cons r l ih =>
    intro st
    rw [List.cons_append, processReceivers, processReceivers]
    cases hf : findSlot souts r.address with
    | none => rfl
    | some slot =>
      simp only
      split
      · rfl
      · cases hd : AddDeposit (env.getHolding ac r.address) txid r.quantity
            single now with
        | error e => cases e <;> rfl
        | ok h1 =>
          simp only
          split
          · rfl
          · exact ih _

/-- A duplicate sender: two senders of the same asset whose input addresses
coincide (hence map to the same settlement output slot), with the senders
before the second occurrence processed successfully, make the sender loop
fail with the node error msg-malformed. -/
theorem processSenders_duplicate (env : Env) (ttx : InspectorTx)
    (ac : List Nat) (souts : List Addr) (single : Bool) (now txid : Nat)
    (senders : List QuantityIndexField) (st0 : AssetLoopState)
    (hlen : st0.hds.length = souts.length)
    (j k : Nat) (hjk : j < k) (sj sk : QuantityIndexField)
    (hsj : senders[j]? = some sj) (hsk : senders[k]? = some sk)
    (inpj inpk : TxInput)
    (hij : ttx.inputs.get? sj.index = some inpj)
    (hik : ttx.inputs.get? sk.index = some inpk)
    (haddr : inpj.address = inpk.address)
    (slot : Nat) (hslot : findSlot souts inpj.address = some slot)
    (stk : AssetLoopState)
    (hstk : processSenders env ttx ac souts single now txid
      (senders.take k) st0 = .ok stk) :
    processSenders env ttx ac souts single now txid senders st0 =
      .error (.node .msgMalformed "") := by
  have hklen : k < senders.length := by
    by_contra hc
    rw [List.getElem?_eq_none (by omega)] at hsk
    cases hsk
  have hdecomp : senders = senders.take k ++ (sk :: senders.drop (k + 1)) := by
    conv_lhs => rw [← List.take_append_drop k senders]
    rw [List.drop_eq_getElem_cons hklen]
    congr 2
    have := List.getElem?_eq_getElem hklen
    rw [this] at hsk
    exact (Option.some.injEq _ _).mp hsk
  rw [hdecomp, processSenders_append, hstk]
  simp only
  rw [processSenders, hik]
  simp only
  rw [← haddr, hslot]
  simp only
  rw [if_pos]
  have hsj' : sj ∈ senders.take k := by
    have hj : (senders.take k)[j]? = some sj := by
      rw [List.getElem?_take]
      simpa [hjk] using hsj
    exact List.getElem?_mem hj
  obtain ⟨_, _, hmem⟩ := processSenders_hds_invariant env ttx ac souts
    single now txid (senders.take k) st0 stk hstk
  have hltslot : slot < st0.hds.length := by
    have := (List.findIdx?_eq_some_iff_getElem.mp hslot).1
    omega
  have := hmem sj hsj' inpj hij slot hslot hltslot
  rw [senderAccum_hds]
  exact this

/-- A duplicate receiver, with the whole sender loop and the receivers
before the second occurrence processed successfully, makes the receiver
loop fail with the node error msg-malformed. -/
theorem processReceivers_duplicate (env : Env) (ac : List Nat)
    (souts : List Addr) (single : Bool) (now txid : Nat)
    (receivers : List AssetReceiverField) (st1 : AssetLoopState)
    (hlen : st1.hds.length = souts.length)
    (j k : Nat) (hjk : j < k) (rj rk : AssetReceiverField)
    (hrj : receivers[j]? = some rj) (hrk : receivers[k]? = some rk)
    (haddr : rj.address = rk.address)
    (slot : Nat) (hslot : findSlot souts rj.address = some slot)
    (stk : AssetLoopState)
    (hstk : processReceivers env ac souts single now txid
      (receivers.take k) st1 = .ok stk) :
    processReceivers env ac souts single now txid receivers st1 =
      .error (.node .msgMalformed "") := by
  have hklen : k < receivers.length := by
    by_contra hc
    rw [List.getElem?_eq_none (by omega)] at hrk
    cases hrk
  have hdecomp : receivers =
      receivers.take k ++ (rk :: receivers.drop (k + 1)) := by
    conv_lhs => rw [← List.take_append_drop k receivers]
    rw [List.drop_eq_getElem_cons hklen]
    congr 2
    have := List.getElem?_eq_getElem hklen
    rw [this] at hrk
    exact (Option.some.injEq _ _).mp hrk
  rw [hdecomp, processReceivers_append, hstk]
  simp only
  rw [processReceivers, ← haddr, hslot]
  simp only
  rw [if_pos]
  have hrj' : rj ∈ receivers.take k := by
    have hj : (receivers.take k)[j]? = some rj := by
      rw [List.getElem?_take]
      simpa [hjk] using hrj
    exact List.getElem?_mem hj
  obtain ⟨_, _, hmem⟩ := processReceivers_hds_invariant env ac souts
    single now txid (receivers.take k) st1 stk hstk
  have hltslot : slot < st1.hds.length := by
    have := (List.findIdx?_eq_some_iff_getElem.mp hslot).1
    omega
  have := hmem rj hrj' slot hslot hltslot
  rw [receiverAccum_hds]
  exact this

theorem processAsset_sender_error (env : Env) (rk : Addr)
    (ttx : InspectorTx) (sinAddrs soutAddrs : List Addr) (single : Bool)
    (now txid : Nat) (a : AssetTransferField)
    (hnb : ¬(a.assetType = "BSV" ∧ a.assetCode.length = 0))
    (hrange : a.contractIndex < ttx.outputs.length)
    (hours : (ttx.outputs.getD a.contractIndex ⟨0, 0⟩).address = rk)
    (hrk : rk ≠ 0)
    (as : AssetState) (has : env.assetLookup a.assetCode = some as)
    (htr : as.transferable = true)
    (hci : (findSlot sinAddrs rk).isSome = true)
    (e : GoErr)
    (hps : processSenders env ttx a.assetCode soutAddrs single now txid
      a.assetSenders ⟨List.replicate soutAddrs.length none, 0, 0, 0, 0, 0⟩ =
      .error e) :
    processAsset env rk ttx sinAddrs soutAddrs single now txid a =
      .error e := by
  rw [processAsset]
  rw [if_neg (by
    intro hc
    simp only [Bool.and_eq_true, beq_iff_eq] at hc
    exact hnb ⟨hc.1, by simpa using hc.2⟩)]
  rw [if_neg (by omega)]
  simp only
  rw [if_neg (by rw [hours]; simp [hrk]), has]
  simp only
  rw [if_neg (by simp [htr])]
  cases hfi : findSlot sinAddrs rk with
  | none => rw [hfi] at hci; simp at hci
  | some cidx =>
    simp only
    rw [hps]

theorem processAsset_receiver_error (env : Env) (rk : Addr)
    (ttx : InspectorTx) (sinAddrs soutAddrs : List Addr) (single : Bool)
    (now txid : Nat) (a : AssetTransferField)
    (hnb : ¬(a.assetType = "BSV" ∧ a.assetCode.length = 0))
    (hrange : a.contractIndex < ttx.outputs.length)
    (hours : (ttx.outputs.getD a.contractIndex ⟨0, 0⟩).address = rk)
    (hrk : rk ≠ 0)
    (as : AssetState) (has : env.assetLookup a.assetCode = some as)
    (htr : as.transferable = true)
    (hci : (findSlot sinAddrs rk).isSome = true)
    (st1 : AssetLoopState)
    (hps : processSenders env ttx a.assetCode soutAddrs single now txid
      a.assetSenders ⟨List.replicate soutAddrs.length none, 0, 0, 0, 0, 0⟩ =
      .ok st1)
    (e : GoErr)
    (hpr : processReceivers env a.assetCode soutAddrs single now txid
      a.assetReceivers st1 = .error e) :
    processAsset env rk ttx sinAddrs soutAddrs single now txid a =
      .error e := by
  rw [processAsset]
  rw [if_neg (by
    intro hc
    simp only [Bool.and_eq_true, beq_iff_eq] at hc
    exact hnb ⟨hc.1, by simpa using hc.2⟩)]
  rw [if_neg (by omega)]
  simp only
  rw [if_neg (by rw [hours]; simp [hrk]), has]
  simp only
  rw [if_neg (by simp [htr])]
  cases hfi : findSlot sinAddrs rk with
  | none => rw [hfi] at hci; simp at hci
  | some cidx =>
    simp only
    rw [hps]
    simp only
    rw [hpr]

theorem assetsLoop_append (env : Env) (rk : Addr) (ttx : InspectorTx)
    (sinAddrs soutAddrs : List Addr) (single : Bool) (now txid : Nat)
    (l1 l2 : List AssetTransferField) :
    ∀ d, assetsLoop env rk ttx sinAddrs soutAddrs single now txid
        (l1 ++ l2) d =
      (match assetsLoop env rk ttx sinAddrs soutAddrs single now txid l1 d
       with
       | .error e => .error e
       | .ok d1 =>
        assetsLoop env rk ttx sinAddrs soutAddrs single now txid l2 d1) := by
  induction l1 with
  | nil => intro d; simp [assetsLoop]
  | cons a l ih =>
    intro d
    rw [List.cons_append, assetsLoop, assetsLoop]
    cases hp : processAsset env rk ttx sinAddrs soutAddrs single now txid a
      with
    | error e => rfl
    | ok added => exact ih _

theorem addSettlementData_error_at (env : Env) (rk : Addr)
    (ttx : InspectorTx) (tf : TransferFields) (settleInputs : List Nat)
    (settleOuts : List SettleOutput) (single : Bool) (now txid : Nat)
    (hfr : env.contract.freezePeriod ≤ now)
    (i : Nat) (a : AssetTransferField) (ha : tf.assets[i]? = some a)
    (d1 : Bool)
    (hpre : assetsLoop env rk ttx (settleInputAddresses ttx settleInputs)
      (settleOutputAddresses settleOuts) single now txid
      (tf.assets.take i) false = .ok d1)
    (e : GoErr)
    (hpa : processAsset env rk ttx (settleInputAddresses ttx settleInputs)
      (settleOutputAddresses settleOuts) single now txid a = .error e) :
    addSettlementData env rk ttx tf settleInputs settleOuts single now
      txid = .error e := by
  have hilen : i < tf.assets.length := by
    by_contra hc
    rw [List.getElem?_eq_none (by omega)] at ha
    cases ha
  have hdecomp : tf.assets =
      tf.assets.take i ++ (a :: tf.assets.drop (i + 1)) := by
    conv_lhs => rw [← List.take_append_drop i tf.assets]
    rw [List.drop_eq_getElem_cons hilen]
    congr 2
    have := List.getElem?_eq_getElem hilen
    rw [this] at ha
    exact (Option.some.injEq _ _).mp ha
  rw [addSettlementData, if_neg (by omega)]
  rw [hdecomp, assetsLoop_append, hpre]
  simp only
  rw [assetsLoop, hpa]

/-- C6: within one asset entry of this contract, a party appearing twice as
a sender — or twice as a receiver — mapped to the same settlement output
slot makes the handler reject the transfer with msg-malformed.  The
hypotheses state that processing reaches the duplicate: the contract is not
frozen, earlier asset entries processed without error, the asset is a
transferable non-bitcoin asset of this contract with a settlement input,
and the senders (respectively the full sender list and the earlier
receivers) before the duplicate were processed successfully. -/
theorem claim_C6 (env : Env) (rk : Addr) (ttx : InspectorTx)
    (tf : TransferFields) (settleInputs : List Nat)
    (settleOuts : List SettleOutput) (single : Bool) (now txid : Nat)
    (hfr : env.contract.freezePeriod ≤ now) (hrk : rk ≠ 0) :
    (∀ (i : Nat) (a : AssetTransferField), tf.assets[i]? = some a →
      ¬(a.assetType = "BSV" ∧ a.assetCode.length = 0) →
      a.contractIndex < ttx.outputs.length →
      (ttx.outputs.getD a.contractIndex ⟨0, 0⟩).address = rk →
      ∀ as : AssetState, env.assetLookup a.assetCode = some as →
      as.transferable = true →
      (findSlot (settleInputAddresses ttx settleInputs) rk).isSome = true →
      ∀ d1 : Bool, assetsLoop env rk ttx
        (settleInputAddresses ttx settleInputs)
        (settleOutputAddresses settleOuts) single now txid
        (tf.assets.take i) false = .ok d1 →
      ∀ j k : Nat, j < k →
      ∀ sj sk : QuantityIndexField, a.assetSenders[j]? = some sj →
      a.assetSenders[k]? = some sk →
      ∀ inpj inpk : TxInput, ttx.inputs.get? sj.index = some inpj →
      ttx.inputs.get? sk.index = some inpk →
      inpj.address = inpk.address →
      ∀ slot : Nat,
      findSlot (settleOutputAddresses settleOuts) inpj.address = some slot →
      ∀ stk : AssetLoopState,
      processSenders env ttx a.assetCode (settleOutputAddresses settleOuts)
        single now txid (a.assetSenders.take k)
        ⟨List.replicate (settleOutputAddresses settleOuts).length none,
          0, 0, 0, 0, 0⟩ = .ok stk →
      addSettlementData env rk ttx tf settleInputs settleOuts single now
        txid = .error (.node .msgMalformed "")) ∧
    (∀ (i : Nat) (a : AssetTransferField), tf.assets[i]? = some a →
      ¬(a.assetType = "BSV" ∧ a.assetCode.length = 0) →
      a.contractIndex < ttx.outputs.length →
      (ttx.outputs.getD a.contractIndex ⟨0, 0⟩).address = rk →
      ∀ as : AssetState, env.assetLookup a.assetCode = some as →
      as.transferable = true →
      (findSlot (settleInputAddresses ttx settleInputs) rk).isSome = true →
      ∀ d1 : Bool, assetsLoop env rk ttx
        (settleInputAddresses ttx settleInputs)
        (settleOutputAddresses settleOuts) single now txid
        (tf.assets.take i) false = .ok d1 →
      ∀ st1 : AssetLoopState,
      processSenders env ttx a.assetCode (settleOutputAddresses settleOuts)
        single now txid a.assetSenders
        ⟨List.replicate (settleOutputAddresses settleOuts).length none,
          0, 0, 0, 0, 0⟩ = .ok st1 →
      ∀ j k : Nat, j < k →
      ∀ rj rcv : AssetReceiverField, a.assetReceivers[j]? = some rj →
      a.assetReceivers[k]? = some rcv →
      rj.address = rcv.address →
      ∀ slot : Nat,
      findSlot (settleOutputAddresses settleOuts) rj.address = some slot →
      ∀ stk : AssetLoopState,
      processReceivers env a.assetCode (settleOutputAddresses settleOuts)
        single now txid (a.assetReceivers.take k) st1 = .ok stk →
      addSettlementData env rk ttx tf settleInputs settleOuts single now
        txid = .error (.node .msgMalformed "")) := by
  constructor
  · intro i a ha hnb hrange hours as has htr hci d1 hpre j k hjk sj sk hsj
      hsk inpj inpk hij hik haddr slot hslot stk hstk
    have hdup := processSenders_duplicate env ttx a.assetCode
      (settleOutputAddresses settleOuts) single now txid a.assetSenders
      ⟨List.replicate (settleOutputAddresses settleOuts).length none,
        0, 0, 0, 0, 0⟩ (by simp) j k hjk sj sk hsj hsk inpj inpk hij hik
      haddr slot hslot stk hstk
    have hpa := processAsset_sender_error env rk ttx
      (settleInputAddresses ttx settleInputs)
      (settleOutputAddresses settleOuts) single now txid a hnb hrange hours
      hrk as has htr hci _ hdup
    exact addSettlementData_error_at env rk ttx tf settleInputs settleOuts
      single now txid hfr i a ha d1 hpre _ hpa
  · intro i a ha hnb hrange hours as has htr hci d1 hpre st1 hps j k hjk rj
      rcv hrj hrcv haddr slot hslot stk hstk
    have hlen1 : st1.hds.length =
        (settleOutputAddresses settleOuts).length := by
      obtain ⟨hl, _, _⟩ := processSenders_hds_invariant env ttx a.assetCode
        (settleOutputAddresses settleOuts) single now txid a.assetSenders
        _ _ hps
      simpa using hl
    have hdup := processReceivers_duplicate env a.assetCode
      (settleOutputAddresses settleOuts) single now txid a.assetReceivers
      st1 hlen1 j k hjk rj rcv hrj hrcv haddr slot hslot stk hstk
    have hpa := processAsset_receiver_error env rk ttx
      (settleInputAddresses ttx settleInputs)
      (settleOutputAddresses settleOuts) single now txid a hnb hrange hours
      hrk as has htr hci st1 hps _ hdup
    exact addSettlementData_error_at env rk ttx tf settleInputs settleOuts
      single now txid hfr i a ha d1 hpre _ hpa

/-- Transfer used by the C6 witness: address 11 appears twice as a sender
of the same asset (input index 0 twice). -/
def tfC6 : TransferFields :=
  ⟨[⟨"SHC", [1], 0, [⟨0, 3⟩, ⟨0, 2⟩], [⟨12, 5⟩]⟩], 0, 0, 0⟩

theorem claim_C6_witness :
    envW.contract.freezePeriod ≤ 50 ∧ (5 : Addr) ≠ 0 ∧
    addSettlementData envW 5 ttxW tfC6 [0] soutsW true 50 77 =
      .error (.node .msgMalformed "") := by
  refine ⟨by decide, by decide, ?_⟩
  exact (claim_C6 envW 5 ttxW tfC6 [0] soutsW true 50 77 (by decide)
      (by decide)).1
    0 ⟨"SHC", [1], 0, [⟨0, 3⟩, ⟨0, 2⟩], [⟨12, 5⟩]⟩ rfl (by decide)
    (by decide) rfl ⟨true, true⟩ rfl rfl rfl false rfl 0 1 (by decide)
    ⟨0, 3⟩ ⟨0, 2⟩ rfl rfl ⟨11, 600⟩ ⟨11, 600⟩ rfl rfl rfl 0 rfl _ rfl

/-! #### Claim C7: refund shortfall in respondTransferReject -/

/-- Modelled from the spec: node.ResponseWriter.AddRejectValue (package
internal/platform/node, not under src/) adds the value to the pending
reject-response output for the address, creating the output when absent. -/
def addRejectValue (outs : List (Addr × Nat)) (a : Addr) (v : Nat) :
    List (Addr × Nat) :=
  if (outs.map Prod.fst).contains a then
    outs.map (fun p => if p.1 = a then (p.1, p.2 + v) else p)
  else outs ++ [(a, v)]

/-- The marking pass of findBoomerangIndex from transfer.go: collect the
transfer outputs spent by the settlement; an out-of-range contract index
aborts with the not-found sentinel. -/
def boomerangMark (ttx : InspectorTx) :
    List AssetTransferField → List Nat → Option (List Nat)
  | [], used => some used
  | a :: rest, used =>
    if a.contractIndex = 0xffff ∨
        (a.assetType = "BSV" ∧ a.assetCode.length = 0) then
      boomerangMark ttx rest used
    else if ttx.outputs.length ≤ a.contractIndex then none
    else boomerangMark ttx rest (used ++ [a.contractIndex])

/-- findBoomerangIndex from transfer.go: the first transfer output paying
the contract that no asset transfer spends; 0xffffffff when there is
none. -/
def findBoomerangIndex (ttx : InspectorTx) (tf : TransferFields)
    (contractAddress : Addr) : Nat :=
  match boomerangMark ttx tf.assets [] with
  | none => 0xffffffff
  | some used =>
    match (List.range ttx.outputs.length).find? (fun i =>
        !(used.contains i) &&
        ((ttx.outputs.getD i ⟨0, 0⟩).address == contractAddress)) with
    | some i => i
    | none => 0xffffffff

/-- The refund-output pass over one asset's senders in
respondTransferReject: senders with out-of-range input indices are skipped;
bitcoin senders are owed their quantity (accumulated in the refund
balance), other senders get a zero-value notification output. -/
def rejectSenders (ttx : InspectorTx) (bitcoin : Bool) :
    List QuantityIndexField → List (Addr × Nat) → Nat →
    List (Addr × Nat) × Nat
  | [], outs, refund => (outs, refund)
  | s :: rest, outs, refund =>
    if ttx.inputs.length ≤ s.index then
      rejectSenders ttx bitcoin rest outs refund
    else
      if bitcoin then
        rejectSenders ttx bitcoin rest
          (addRejectValue outs (ttx.inputs.getD s.index ⟨0, 0⟩).address
            s.quantity)
          (refund + s.quantity)
      else
        rejectSenders ttx bitcoin rest
          (addRejectValue outs (ttx.inputs.getD s.index ⟨0, 0⟩).address 0)
          refund

/-- The revert pass over one asset's senders in respondTransferReject.
The source reads `transferTx.Inputs[sender.Index]` here without a range
check, so an out-of-range index would panic; it is modelled as an error —
either way no rejection response is issued. -/
def revertSenders (env : Env) (ttx : InspectorTx) (assetCode : List Nat)
    (txid : Nat) : List QuantityIndexField → Except GoErr Unit
  | [] => .ok ()
  | s :: rest =>
    match ttx.inputs.get? s.index with
    | none => .error (.plain "panic: sender index out of range")
    | some inp =>
      match RevertStatus (env.getHolding assetCode inp.address) txid with
      | .error _ => .error (.plain "revert status")
      | .ok _ => revertSenders env ttx assetCode txid rest

/-- The revert pass over one asset's receivers in respondTransferReject. -/
def revertReceivers (env : Env) (assetCode : List Nat) (txid : Nat) :
    List AssetReceiverField → Except GoErr Unit
  | [] => .ok ()
  | r :: rest =>
    match RevertStatus (env.getHolding assetCode r.address) txid with
    | .error _ => .error (.plain "revert status")
    | .ok _ => revertReceivers env assetCode txid rest

/-- The per-asset loop of respondTransferReject: bitcoin senders get refund
outputs, token senders get zero-value outputs, and when the relay had
already started this contract's own assets have their pending holding
statuses reverted. -/
def rejectLoop (env : Env) (rk : Addr) (ttx : InspectorTx) (started : Bool)
    (txid : Nat) :
    List AssetTransferField → List (Addr × Nat) → Nat →
    Except GoErr (List (Addr × Nat) × Nat)
  | [], outs, refund => .ok (outs, refund)
  | a :: rest, outs, refund =>
    if a.assetType = "BSV" ∧ a.assetCode.length = 0 then
      rejectLoop env rk ttx started txid rest
        (rejectSenders ttx true a.assetSenders outs refund).1
        (rejectSenders ttx true a.assetSenders outs refund).2
    else
      if started then
        if ttx.outputs.length ≤ a.contractIndex then
          .error (.plain "Contract index out of range")
        else if ¬((ttx.outputs.getD a.contractIndex ⟨0, 0⟩).address = rk)
          then
          rejectLoop env rk ttx started txid rest
            (rejectSenders ttx false a.assetSenders outs refund).1
            (rejectSenders ttx false a.assetSenders outs refund).2
        else
          match revertSenders env ttx a.assetCode txid a.assetSenders with
          | .error e => .error e
          | .ok _ =>
            match revertReceivers env a.assetCode txid a.assetReceivers with
            | .error e => .error e
            | .ok _ =>
              rejectLoop env rk ttx started txid rest
                (rejectSenders ttx false a.assetSenders outs refund).1
                (rejectSenders ttx false a.assetSenders outs refund).2
      else
        rejectLoop env rk ttx started txid rest
          (rejectSenders ttx false a.assetSenders outs refund).1
          (rejectSenders ttx false a.assetSenders outs refund).2

/-- The reject response under construction: the funding UTXOs (transfer tx
output indices), the refund outputs, the change address set by
ClearRejectOutputValues, and the rejection code. -/
structure RejectResponse where
  fundingIndices : List Nat
  outputs : List (Addr × Nat)
  changeAddress : Option Addr
  code : RejectCode
deriving DecidableEq, Repr

/-- The transfer tx outputs paying the contract
(`transferTx.UTXOs().ForAddress(rk.Address)`, package pkg/inspector, not
under src/: modelled from the spec as the outputs locked to the address,
an empty result being the error the caller wraps). -/
def contractUTXOIndices (ttx : InspectorTx) (rk : Addr) : List Nat :=
  (List.range ttx.outputs.length).filter
    (fun i => (ttx.outputs.getD i ⟨0, 0⟩).address == rk)

/-- Boomerang removal of respondTransferReject: when the relay had
started, the boomerang output was already spent and is removed from the
funding UTXOs. -/
def removeBoomerang (ttx : InspectorTx) (tf : TransferFields) (rk : Addr)
    (started : Bool) (utxos : List Nat) : Except GoErr (List Nat) :=
  if started then
    if findBoomerangIndex ttx tf rk ≠ 0xffffffff ∧
        (ttx.outputs.getD (findBoomerangIndex ttx tf rk) ⟨0, 0⟩).address =
          rk then
      if utxos.contains (findBoomerangIndex ttx tf rk) then
        .ok (utxos.erase (findBoomerangIndex ttx tf rk))
      else .error (.plain "Boomerang output not found")
    else .ok utxos
  else .ok utxos

/-- respondTransferReject from transfer.go: fund the response from the
contract's transfer UTXOs (minus the spent boomerang), require this to be
the first contract, build refund outputs for all senders (bitcoin senders
for their quantities), and if the funding cannot cover the bitcoin refunds,
clear every refund output value and send the bitcoin to the administration
address instead (ClearRejectOutputValues, package internal/platform/node,
not under src/: modelled from the spec — partial refunds are never
issued). -/
def respondTransferReject (env : Env) (ttx : InspectorTx)
    (tf : TransferFields) (rk : Addr) (code : RejectCode) (started : Bool)
    (txid : Nat) : Except GoErr RejectResponse :=
  if (contractUTXOIndices ttx rk).isEmpty then
    .error (.plain "Transfer UTXOs not found")
  else
    match removeBoomerang ttx tf rk started (contractUTXOIndices ttx rk)
      with
    | .error e => .error e
    | .ok utxos =>
      if firstContractOutputIndex tf.assets ttx = 0xffff then
        .error (.plain "First contract output index not found")
      else if ¬((ttx.outputs.getD (firstContractOutputIndex tf.assets ttx)
          ⟨0, 0⟩).address = rk) then
        .error (.plain "This is not the first contract")
      else
        match rejectLoop env rk ttx started txid tf.assets [] 0 with
        | .error e => .error e
        | .ok (outs, refundBalance) =>
          if (utxos.map (fun i => (ttx.outputs.getD i ⟨0, 0⟩).value)).sum <
              refundBalance then
            .ok ⟨utxos, outs.map (fun p => (p.1, 0)),
              some env.contract.administrationAddress, code⟩
          else
            .ok ⟨utxos, outs, none, code⟩

/-- The total bitcoin refund owed to senders: the sum over the bitcoin
asset entries of the quantities of their senders with in-range input
indices. -/
def bitcoinRefundOwed (ttx : InspectorTx)
    (assets : List AssetTransferField) : Nat :=
  (assets.map (fun a =>
    if a.assetType = "BSV" ∧ a.assetCode.length = 0 then
      ((a.assetSenders.filter
        (fun s => decide (s.index < ttx.inputs.length))).map
        (fun s => s.quantity)).sum
    else 0)).sum

theorem rejectSenders_refund_true (ttx : InspectorTx)
    (senders : List QuantityIndexField) :
    ∀ outs refund, (rejectSenders ttx true senders outs refund).2 =
      refund + ((senders.filter
        (fun s => decide (s.index < ttx.inputs.length))).map
        (fun s => s.quantity)).sum := by
  induction senders with
  | nil => intro outs refund; simp [rejectSenders]
  | cons s rest ih =>
    intro outs refund
    rw [rejectSenders]
    by_cases hr : ttx.inputs.length ≤ s.index
    · rw [if_pos hr, List.filter_cons_of_neg (by simpa using hr)]
      exact ih _ _
    · rw [if_neg hr, if_pos rfl,
        List.filter_cons_of_pos (by simp; omega)]
      rw [ih _ _]
      simp only [List.map_cons, List.sum_cons]
      omega

theorem rejectSenders_refund_false (ttx : InspectorTx)
    (senders : List QuantityIndexField) :
    ∀ outs refund, (rejectSenders ttx false senders outs refund).2 =
      refund := by
  induction senders with
  | nil => intro outs refund; simp [rejectSenders]
  | cons s rest ih =>
    intro outs refund
    rw [rejectSenders]
    by_cases hr : ttx.inputs.length ≤ s.index
    · rw [if_pos hr]; exact ih _ _
    · rw [if_neg hr, if_neg (by simp)]; exact ih _ _

theorem rejectLoop_refund (env : Env) (rk : Addr) (ttx : InspectorTx)
    (started : Bool) (txid : Nat) (assets : List AssetTransferField) :
    ∀ outs refund res,
      rejectLoop env rk ttx started txid assets outs refund = .ok res →
      res.2 = refund + bitcoinRefundOwed ttx assets := by
  induction assets with
  | nil =>
    intro outs refund res h
    cases h
    simp [bitcoinRefundOwed]
  | cons a rest ih =>
    intro outs refund res h
    rw [rejectLoop] at h
    unfold bitcoinRefundOwed
    simp only [List.map_cons, List.sum_cons]
    by_cases hbtc : a.assetType = "BSV" ∧ a.assetCode.length = 0
    · rw [if_pos hbtc] at h
      have := ih _ _ _ h
      rw [rejectSenders_refund_true] at this
      unfold bitcoinRefundOwed at this
      rw [if_pos hbtc]
      omega
    · rw [if_neg hbtc] at h
      rw [if_neg hbtc]
      split at h
      · split at h
        · cases h
        · split at h
          · have := ih _ _ _ h
            rw [rejectSenders_refund_false] at this
            unfold bitcoinRefundOwed at this
            omega
          · split at h
            · cases h
            · split at h
              · cases h
              · have := ih _ _ _ h
                rw [rejectSenders_refund_false] at this
                unfold bitcoinRefundOwed at this
                omega
      · have := ih _ _ _ h
        rw [rejectSenders_refund_false] at this
        unfold bitcoinRefundOwed at this
        omega

/-- C7: for every successfully issued transfer rejection in which the
bitcoin refund owed to senders exceeds the funding available in the
contract's UTXOs, no sender receives a partial refund: every refund output
value is cleared to zero and the change is directed to the contract's
administration address. -/
theorem claim_C7 (env : Env) (ttx : InspectorTx) (tf : TransferFields)
    (rk : Addr) (code : RejectCode) (started : Bool) (txid : Nat)
    (resp : RejectResponse)
    (hok : respondTransferReject env ttx tf rk code started txid =
      .ok resp)
    (hshort : (resp.fundingIndices.map
      (fun i => (ttx.outputs.getD i ⟨0, 0⟩).value)).sum <
      bitcoinRefundOwed ttx tf.assets) :
    (∀ p ∈ resp.outputs, p.2 = 0) ∧
    resp.changeAddress = some env.contract.administrationAddress := by
  rw [respondTransferReject] at hok
  split at hok
  · cases hok
  · cases hrb : removeBoomerang ttx tf rk started
        (contractUTXOIndices ttx rk) with
    | error e => rw [hrb] at hok; cases hok
    | ok utxos =>
      rw [hrb] at hok
      simp only at hok
      split at hok
      · cases hok
      · split at hok
        · cases hok
        · cases hrl : rejectLoop env rk ttx started txid tf.assets [] 0
            with
          | error e => rw [hrl] at hok; cases hok
          | ok pr =>
            rw [hrl] at hok
            obtain ⟨outs, refund⟩ := pr
            have href := rejectLoop_refund env rk ttx started txid
              tf.assets [] 0 _ hrl
            simp only at href hok
            split at hok
            · cases hok
              constructor
              · intro p hp
                simp only at hp
                obtain ⟨q, _, hq⟩ := List.mem_map.mp hp
                rw [← hq]
              · rfl
            · exfalso
              cases hok
              simp only at hshort
              omega

/-- Transfer used by the C7 witness: a token asset naming this contract
plus a bitcoin entry owing its sender a 5000-satoshi refund, against a
single 1000-satoshi contract UTXO. -/
def tfC7 : TransferFields :=
  ⟨[⟨"SHC", [1], 0, [⟨0, 5⟩], [⟨12, 5⟩]⟩,
    ⟨"BSV", [], 0, [⟨0, 5000⟩], [⟨12, 5000⟩]⟩], 0, 0, 0⟩

theorem claim_C7_witness :
    respondTransferReject envW ttxW tfC7 5 .timeout false 77 =
      .ok ⟨[0], [(11, 0)], some 99, .timeout⟩ ∧
    (([0].map (fun i => (ttxW.outputs.getD i ⟨0, 0⟩).value)).sum <
      bitcoinRefundOwed ttxW tfC7.assets) ∧
    (∀ p ∈ [((11 : Addr), 0)], p.2 = 0) ∧
    (some (99 : Addr) = some envW.contract.administrationAddress) := by
  refine ⟨rfl, by decide, ?_⟩
  exact claim_C7 envW ttxW tfC7 5 .timeout false 77
    ⟨[0], [(11, 0)], some 99, .timeout⟩ rfl (by decide)

end Transfer

end SmartContract
